import Mathlib

/-
  Verification of the container-metadata subsystem of the not-sus-renamer
  repository, as a shallow embedding in Lean 4.

  The embedding follows the Rust sources:
    src/types/metadata.rs : MatroskaData, Metadata, from_matroska,
                            from_vertical_resolution, get_resolution
    src/types/video.rs    : Video::from_path (filename descriptor parsing),
                            Video::insert_into_matroska (injection engine)
    src/types/entity.rs, src/types/episode.rs : Entity, Episode

  Modelling conventions:
  - The EBML tag stream of webm_iterable is modelled as a `List MatroskaSpec`.
    Master elements carry a structural mode Start / End / Full(children),
    mirroring webm_iterable's `Master` enum.
  - Machine integers (u32, u64) are Nat; the only places Rust integer
    parsing can fail (overflow in from_str_radix) are modelled with the
    same bound checks, and the one arithmetic expression that can wrap a
    u64 (the width multiplication in from_vertical_resolution) carries an
    explicit % 2^64.
  - The f64 duration payload is only ever stored and passed through by the
    code relevant to the claims (no arithmetic is performed on it), so it
    is modelled as an opaque Nat payload.
  - Fallible operations return Option / Except.  The two `unreachable!()`
    arms of the injection engine are modelled as `none` (abort).
-/

set_option maxHeartbeats 1000000

/-- Structural mode of a nestable (master) EBML element, mirroring
webm_iterable's `Master<T>`: Start and End frame children delivered as
separate events; Full delivers a complete subtree. -/
inductive Master (α : Type) : Type where
  | Start : Master α
  | End : Master α
  | Full : List α → Master α

/-- The closed set of element identities used by the system (the
`MatroskaSpec` variants touched by metadata.rs and video.rs).  `Other`
stands for any further element the code passes through untouched. -/
inductive MatroskaSpec : Type where
  | Title : String → MatroskaSpec
  | Duration : Nat → MatroskaSpec
  | PixelWidth : Nat → MatroskaSpec
  | PixelHeight : Nat → MatroskaSpec
  | DisplayWidth : Nat → MatroskaSpec
  | DisplayHeight : Nat → MatroskaSpec
  | Info : Master MatroskaSpec → MatroskaSpec
  | Tracks : Master MatroskaSpec → MatroskaSpec
  | Chapters : Master MatroskaSpec → MatroskaSpec
  | Cluster : Master MatroskaSpec → MatroskaSpec
  | Cues : Master MatroskaSpec → MatroskaSpec
  | Attachments : Master MatroskaSpec → MatroskaSpec
  | Tags : Master MatroskaSpec → MatroskaSpec
  | Tag : Master MatroskaSpec → MatroskaSpec
  | Targets : Master MatroskaSpec → MatroskaSpec
  | SimpleTag : Master MatroskaSpec → MatroskaSpec
  | TagName : String → MatroskaSpec
  | TagString : String → MatroskaSpec
  | Other : Nat → MatroskaSpec

/-! ## metadata.rs : streaming metadata extractor -/

/-- `Metadata` from metadata.rs: resolution is (width, height); length the
optional duration (opaque payload, see header). -/
structure Metadata : Type where
  resolution : Nat × Nat
  length : Option Nat
deriving DecidableEq

/-- Accumulator `MatroskaData` from metadata.rs. -/
structure MatroskaData : Type where
  duration : Option Nat
  pixel_width : Option Nat
  pixel_height : Option Nat
  display_width : Option Nat
  display_height : Option Nat

/-- `MatroskaData::default()`. -/
def MatroskaData.default : MatroskaData := ⟨none, none, none, none, none⟩

/-- `MatroskaData::is_complete`: duration and the pixel width/height pair
are known (metadata.rs lines 21-24). -/
def MatroskaData.is_complete (d : MatroskaData) : Bool :=
  d.duration.isSome && d.pixel_height.isSome && d.pixel_width.isSome

/-- `MatroskaData::build` (metadata.rs lines 26-42).  The `unwrap()`s on
the pixel fields are safe behind the completeness guard; `getD 0` is only
ever reached with the fields `some`. -/
def MatroskaData.build (d : MatroskaData) : Option Metadata :=
  if !d.is_complete then none
  else
    let resolution :=
      match d.display_width, d.display_height with
      | some display_width, some display_height => (display_width, display_height)
      | _, _ => (d.pixel_width.getD 0, d.pixel_height.getD 0)
    some { resolution := resolution, length := some (d.duration.getD 0) }

/-- One step of the extraction loop's `match tag` (metadata.rs lines
59-72).  Note: the source assigns an incoming `DisplayHeight` into the
`display_width` field; this is mirrored verbatim. -/
def updateTag (d : MatroskaData) : MatroskaSpec → MatroskaData
  | .Duration x => { d with duration := some x }
  | .PixelWidth x => { d with pixel_width := some x }
  | .PixelHeight x => { d with pixel_height := some x }
  | .DisplayWidth x => { d with display_width := some x }
  | .DisplayHeight x => { d with display_width := some x }
  | _ => d

/-- The extraction loop of `Metadata::from_matroska` (metadata.rs lines
57-79): after each tag the accumulator is updated and completeness
checked; end of stream yields the incomplete-metadata error. -/
def fromMatroskaLoop (d : MatroskaData) : List MatroskaSpec → Except String Metadata
  | [] => .error "Unable to extract metadata"
  | t :: rest =>
    let d := updateTag d t
    if d.is_complete then
      match d.build with
      | some m => .ok m
      | none => .error "unreachable unwrap"
    else fromMatroskaLoop d rest

/-- `Metadata::from_matroska`, on an already-decoded tag stream. -/
def from_matroska (l : List MatroskaSpec) : Except String Metadata :=
  fromMatroskaLoop MatroskaData.default l

/-- `Metadata::from_vertical_resolution` (metadata.rs lines 82-87).  The
width `vertical_resolution / 9 * 16` is u64 arithmetic: the division
cannot overflow, but the multiplication by 16 wraps modulo 2^64 (so it is
taken mod 2^64 here); at `vertical_resolution / 9 = 2^60` the width wraps
to 0. -/
def from_vertical_resolution (vertical_resolution : Nat) (length : Option Nat) : Metadata :=
  { resolution := (vertical_resolution / 9 * 16 % 2 ^ 64, vertical_resolution)
    length := length }

/-! ## metadata.rs : resolution classifier -/

/-- The fixed resolution ladder (metadata.rs line 10). -/
def STANDARD_RESOLUTIONS : List Nat := [480, 720, 1080, 1440, 2160, 4320]

/-- The bracketing loop of `Metadata::get_resolution` (metadata.rs lines
91-101), recursing over adjacent ladder pairs exactly as the indexed loop
does; falls through to the raw value when no bracket matches. -/
def pickTier (best : Nat) : List Nat → Nat
  | lower :: higher :: rest =>
    if lower ≤ best ∧ best ≤ higher then
      if best - lower > higher - best then higher else lower
    else pickTier best (higher :: rest)
  | _ => best

/-- `Metadata::get_resolution` (metadata.rs lines 89-103).  Note the
effective vertical resolution is `resolution.0 / 16 * 9` — the width is
floor-divided by 16 before multiplying. -/
def Metadata.get_resolution (m : Metadata) : Nat :=
  let best_resolution := max (m.resolution.1 / 16 * 9) m.resolution.2
  pickTier best_resolution STANDARD_RESOLUTIONS

/-- Spec-side tier choice, written from the claim's words: among the
ladder pair bracketing the value choose the nearer tier, the lower one on
an exact tie.  Expressed through the midpoints of adjacent tiers: a value
at or below a midpoint goes to the lower tier (the midpoint itself is the
exact tie). -/
def nearestTierSpec (b : Nat) : Nat :=
  if b ≤ 600 then 480
  else if b ≤ 900 then 720
  else if b ≤ 1260 then 1080
  else if b ≤ 1800 then 1440
  else if b ≤ 3240 then 2160
  else 4320

/-- The classifier exactly as claim C7 words it: effective value
`max (width * 9 / 16, height)`, returned unchanged outside [480, 4320],
otherwise snapped to the nearest tier (ties down). -/
def classifyClaim (w h : Nat) : Nat :=
  let eff := max (w * 9 / 16) h
  if eff < 480 ∨ 4320 < eff then eff else nearestTierSpec eff

/-- The classifier with the effective-value formula the code actually
uses, `max (width / 16 * 9, height)`; the tier selection is the claim's. -/
def classifySpec (w h : Nat) : Nat :=
  let eff := max (w / 16 * 9) h
  if eff < 480 ∨ 4320 < eff then eff else nearestTierSpec eff

lemma pickTier_eq (b : Nat) :
    pickTier b STANDARD_RESOLUTIONS =
      if b < 480 ∨ 4320 < b then b else nearestTierSpec b := by
  simp only [STANDARD_RESOLUTIONS, pickTier, nearestTierSpec]
  split_ifs <;> omega

/-! ## entity.rs / episode.rs / video.rs : data model -/

/-- `Entity` from entity.rs. -/
structure Entity : Type where
  title : String
  release_year : Nat
  imdb_id : Option String
deriving DecidableEq

/-- `Episode` from episode.rs. -/
structure Episode : Type where
  episode : Nat
  season : Nat
  title : String
  imdb_id : Option String
  series : Entity
deriving DecidableEq

/-- `VideoData` from video.rs. -/
inductive VideoData : Type where
  | Episode : Episode → Metadata → VideoData
  | Movie : Entity → Metadata → VideoData
deriving DecidableEq

/-! ## video.rs : filename descriptor parser (`Video::from_path`)

The three lazy_static regexes are embedded directly:
`s(\d+)` and `e(\d+)` (case-insensitive) find the first occurrence of the
letter followed by at least one digit and capture the maximal digit run;
`(\d{3,})p` (case-insensitive) finds the leftmost position whose maximal
digit run has length at least 3 and is immediately followed by `p`.
`u32::from_str_radix` / `u64::from_str_radix` overflow is modelled by the
corresponding bound check. -/

/-- Character-level splitting keeping empty pieces, as Rust's
`str::split` over a set of separator characters does. -/
def splitChars (sep : Char → Bool) : List Char → List (List Char)
  | [] => [[]]
  | c :: rest =>
    let r := splitChars sep rest
    if sep c then [] :: r
    else
      match r with
      | x :: xs => (c :: x) :: xs
      | [] => [[c]]

/-- Split a file name on `.`, space and `-` (video.rs line 59). -/
def splitName (s : String) : List String :=
  (splitChars (fun c => c == '.' || c == ' ' || c == '-') s.data).map String.mk

/-- First occurrence of `letter` (case-insensitively) followed by a digit;
captures the maximal digit run after it, as `s(\d+)` / `e(\d+)` do. -/
def findMarker (letter : Char) : List Char → Option (List Char)
  | [] => none
  | c :: rest =>
    if c.toLower == letter && (match rest with | d :: _ => d.isDigit | [] => false) then
      some (rest.takeWhile Char.isDigit)
    else findMarker letter rest

/-- Leftmost match of `(\d{3,})p`: maximal digit run of length ≥ 3
immediately followed by `p` (case-insensitively). -/
def findQuality : List Char → Option (List Char)
  | [] => none
  | c :: rest =>
    let run := (c :: rest).takeWhile Char.isDigit
    if run.length ≥ 3 &&
        (match (c :: rest).drop run.length with | p :: _ => p.toLower == 'p' | [] => false) then
      some run
    else findQuality rest

/-- Decimal value of a digit run (the captures are all-digit and
nonempty, on which this agrees with `from_str_radix(_, 10)`). -/
def digitsToNat (l : List Char) : Nat :=
  l.foldl (fun n c => n * 10 + (c.toNat - '0'.toNat)) 0

/-- Regex capture plus `u32::from_str_radix` with its overflow bound. -/
def parseMarker (letter : Char) (bound : Nat) (tok : String) : Option Nat :=
  match findMarker letter tok.data with
  | some ds => if digitsToNat ds < bound then some (digitsToNat ds) else none
  | none => none

/-- Quality capture plus `u64::from_str_radix` with its overflow bound. -/
def parseQuality (bound : Nat) (tok : String) : Option Nat :=
  match findQuality tok.data with
  | some ds => if digitsToNat ds < bound then some (digitsToNat ds) else none
  | none => none

/-- The mutable locals of the scanning loop in `Video::from_path`
(video.rs lines 64-68). -/
structure ParseState : Type where
  title_end : Nat
  episode_title_end : Nat
  season : Option Nat
  episode : Option Nat
  quality : Option Nat

/-- One iteration of the scanning loop (video.rs lines 69-93): the three
regexes are tried in order on the token; each successful parse overwrites
the field and lowers the relevant boundary indices. -/
def scanToken (st : ParseState) (i : Nat) (part : String) : ParseState :=
  let st :=
    match parseMarker 's' (2 ^ 32) part with
    | some n => { st with season := some n, title_end := min i st.title_end }
    | none => st
  let st :=
    match parseMarker 'e' (2 ^ 32) part with
    | some n => { st with episode := some n, title_end := min i st.title_end }
    | none => st
  match parseQuality (2 ^ 64) part with
  | some n =>
    { st with quality := some n, title_end := min i st.title_end,
              episode_title_end := min i st.episode_title_end }
  | none => st

/-- The whole scanning loop over the extension-stripped tokens. -/
def scanParts (parts : List String) : ParseState :=
  parts.enum.foldl (fun st p => scanToken st p.1 p.2)
    ⟨parts.length, parts.length, none, none, none⟩

/-- The extension-stripped token list of a file name (video.rs lines
59-62: the final token is removed as the extension). -/
def partsOf (file_name : String) : List String := (splitName file_name).dropLast

/-- Parse state of a file name. -/
def parseStateOf (file_name : String) : ParseState := scanParts (partsOf file_name)

/-- The pure identity-construction part of `Video::from_path` (video.rs
lines 95-132), with the container/filename `Metadata` passed in:
title = tokens before the title boundary; the embedded episode title is
emitted only when the segment between the boundaries has more than one
token; an episode marker makes the result an Episode (season defaulting
to 1, episode title to empty), otherwise a Movie. -/
def from_path_info (file_name : String) (metadata : Metadata) : VideoData :=
  let parts := partsOf file_name
  let st := scanParts parts
  let title := String.intercalate " " (parts.take st.title_end)
  let episode_title : Option String :=
    if st.episode_title_end - st.title_end > 1 then
      some (String.intercalate " "
        ((parts.drop (st.title_end + 1)).take (st.episode_title_end - (st.title_end + 1))))
    else none
  match st.episode with
  | some episode =>
    .Episode
      { episode := episode
        season := st.season.getD 1
        title := episode_title.getD ""
        imdb_id := none
        series := { title := title, release_year := 0, imdb_id := none } }
      metadata
  | none =>
    .Movie { title := title, release_year := 0, imdb_id := none } metadata

/-- The `Metadata` `Video::from_path` builds for a non-Matroska file
(video.rs line 105): the parsed quality defaulted to 0. -/
def metadataFromQuality (quality : Option Nat) : Metadata :=
  from_vertical_resolution (quality.getD 0) none

/-! ## Extractor lemmas and claims C5, C6 -/

/-- Tag-kind tests used to state the extraction claims. -/
def isDurationTag : MatroskaSpec → Bool
  | .Duration _ => true
  | _ => false

def isPixelWidthTag : MatroskaSpec → Bool
  | .PixelWidth _ => true
  | _ => false

def isPixelHeightTag : MatroskaSpec → Bool
  | .PixelHeight _ => true
  | _ => false

def isDisplayWidthTag : MatroskaSpec → Bool
  | .DisplayWidth _ => true
  | _ => false

def isDisplayHeightTag : MatroskaSpec → Bool
  | .DisplayHeight _ => true
  | _ => false

/-- The accumulator after a whole stream. -/
def accumData (l : List MatroskaSpec) : MatroskaData :=
  l.foldl updateTag MatroskaData.default

/-- Claim-side knowledge predicate, from C5's words: duration is known. -/
def hasDurationTag (l : List MatroskaSpec) : Bool := l.any isDurationTag

/-- Claim-side knowledge predicate, from C5's words: some width/height
pair (pixel or display) occurs in the stream. -/
def knowsPairClaim (l : List MatroskaSpec) : Bool :=
  (l.any isPixelWidthTag && l.any isPixelHeightTag) ||
  (l.any isDisplayWidthTag && l.any isDisplayHeightTag)

lemma is_complete_updateTag {d : MatroskaData} (h : d.is_complete = true) (t : MatroskaSpec) :
    (updateTag d t).is_complete = true := by
  cases t <;> simp_all [updateTag, MatroskaData.is_complete]

lemma is_complete_foldl {d : MatroskaData} (h : d.is_complete = true) (l : List MatroskaSpec) :
    (l.foldl updateTag d).is_complete = true := by
  induction l generalizing d with
  | nil => exact h
  | cons t l ih => exact ih (is_complete_updateTag h t)

lemma build_isSome {d : MatroskaData} (h : d.is_complete = true) :
    ∃ m, d.build = some m := by
  simp only [MatroskaData.build, h, Bool.not_true, Bool.false_eq_true, if_false]
  exact ⟨_, rfl⟩

lemma loop_error_of_incomplete (l : List MatroskaSpec) (d : MatroskaData)
    (h : (l.foldl updateTag d).is_complete = false) :
    fromMatroskaLoop d l = .error "Unable to extract metadata" := by
  induction l generalizing d with
  | nil => rfl
  | cons t l ih =>
    have h' : (updateTag d t).is_complete = false := by
      cases hc : (updateTag d t).is_complete
      · rfl
      · have := is_complete_foldl hc l
        simp [List.foldl_cons] at h
        rw [this] at h
        exact h
    simp only [fromMatroskaLoop, h', Bool.false_eq_true, if_false]
    exact ih _ (by simpa [List.foldl_cons] using h)

lemma loop_ok_of_complete (l : List MatroskaSpec) (d : MatroskaData)
    (h : (l.foldl updateTag d).is_complete = true) (h0 : d.is_complete = false) :
    ∃ m, fromMatroskaLoop d l = .ok m := by
  induction l generalizing d with
  | nil => simp [List.foldl_nil] at h; rw [h] at h0; cases h0
  | cons t l ih =>
    cases hc : (updateTag d t).is_complete with
    | true =>
      obtain ⟨m, hm⟩ := build_isSome hc
      exact ⟨m, by simp [fromMatroskaLoop, hc, hm]⟩
    | false =>
      obtain ⟨m, hm⟩ := ih (updateTag d t) (by simpa [List.foldl_cons] using h) hc
      exact ⟨m, by simp [fromMatroskaLoop, hc, hm]⟩

lemma loop_ok_append (l rest : List MatroskaSpec) (d : MatroskaData) (m : Metadata)
    (h : fromMatroskaLoop d l = .ok m) :
    fromMatroskaLoop d (l ++ rest) = .ok m := by
  induction l generalizing d with
  | nil => simp [fromMatroskaLoop] at h
  | cons t l ih =>
    cases hc : (updateTag d t).is_complete with
    | true =>
      simp only [fromMatroskaLoop, hc, if_true] at h ⊢
      exact h
    | false =>
      simp only [List.cons_append, fromMatroskaLoop, hc, Bool.false_eq_true, if_false] at h ⊢
      exact ih _ h

lemma duration_foldl_none (l : List MatroskaSpec) (d : MatroskaData)
    (h : l.all (fun t => !isDurationTag t) = true) :
    (l.foldl updateTag d).duration = d.duration := by
  induction l generalizing d with
  | nil => rfl
  | cons t l ih =>
    simp only [List.all_cons, Bool.and_eq_true] at h
    rw [List.foldl_cons, ih _ h.2]
    cases t <;> simp_all [updateTag, isDurationTag]

/-- Claim C5, amended: the extractor's pass is prefix-stable once it has
succeeded (it never consumes the rest of the stream), it succeeds exactly
when duration and the pixel width/height pair have been seen, and any
stream ending before that — in particular any stream with no Duration —
yields the incomplete-metadata error. -/
theorem spec_c5_amended :
    (∀ l rest m, from_matroska l = .ok m → from_matroska (l ++ rest) = .ok m) ∧
    (∀ l, (accumData l).is_complete = false →
      from_matroska l = .error "Unable to extract metadata") ∧
    (∀ l, (accumData l).is_complete = true → ∃ m, from_matroska l = .ok m) ∧
    (∀ l, l.all (fun t => !isDurationTag t) = true →
      from_matroska l = .error "Unable to extract metadata") := by
  refine ⟨fun l rest m h => loop_ok_append l rest _ m h,
    fun l h => loop_error_of_incomplete l _ h,
    fun l h => loop_ok_of_complete l _ h rfl,
    fun l h => loop_error_of_incomplete l _ ?_⟩
  have : (accumData l).duration = none := duration_foldl_none l _ h
  simp [MatroskaData.is_complete, accumData] at this ⊢
  simp [this]

/-- Witness for spec_c5_amended at a concrete stream: success on a prefix
is preserved under appending further tags. -/
theorem spec_c5_amended_witness :
    from_matroska ([.Duration 1, .PixelWidth 2, .PixelHeight 2] ++ [.Other 0]) =
      .ok ⟨(2, 2), some 1⟩ :=
  spec_c5_amended.1 [.Duration 1, .PixelWidth 2, .PixelHeight 2] [.Other 0]
    ⟨(2, 2), some 1⟩ (by rfl)

/-- Counterexample to claim C5 as stated: a stream in which duration and a
(display) width/height pair are known still fails, because completeness
demands the pixel pair specifically. -/
theorem spec_c5_counterexample :
    hasDurationTag [.Duration 1, .DisplayWidth 1920, .DisplayHeight 1080] = true ∧
    knowsPairClaim [.Duration 1, .DisplayWidth 1920, .DisplayHeight 1080] = true ∧
    from_matroska [.Duration 1, .DisplayWidth 1920, .DisplayHeight 1080] =
      .error "Unable to extract metadata" :=
  ⟨rfl, rfl, rfl⟩

/-- Claim C6 (code bug): on a stream carrying Duration, the pixel pair and
a display pair, extraction reports the pixel dimensions, not the display
dimensions — the loop stores an incoming DisplayHeight into the
display_width field, so the display override never fires. -/
theorem spec_c6_bug_eval :
    from_matroska
        [.DisplayWidth 100, .DisplayHeight 200, .Duration 5, .PixelWidth 1920,
          .PixelHeight 1080] = .ok ⟨(1920, 1080), some 5⟩ ∧
    (100, 200) ≠ (⟨(1920, 1080), some 5⟩ : Metadata).resolution :=
  ⟨rfl, by decide⟩

/-! ## Classifier claims C7 -/

/-- Counterexample to claim C7 as stated: at width 2242 the code's
effective value is 2242 / 16 * 9 = 1260 (an exact tie, classified 1080)
while the claim's formula 2242 * 9 / 16 = 1261 would classify 1440. -/
theorem spec_c7_counterexample :
    Metadata.get_resolution ⟨(2242, 1), none⟩ = 1080 ∧
    classifyClaim 2242 1 = 1440 ∧
    Metadata.get_resolution ⟨(2242, 1), none⟩ ≠ classifyClaim 2242 1 :=
  ⟨by decide, by decide, by decide⟩

/-- Claim C7, amended: the classifier equals the claim's description with
the effective vertical resolution computed as max(width / 16 * 9, height)
— the width floor-divided by 16 before multiplying by 9 — including the
pinned concrete cases (1920x1080 and 1920x1088 give 1080, the exact
midpoint 1800 rounds down to 1440, values above 4320 pass unchanged). -/
theorem spec_c7_amended :
    (∀ w h len, Metadata.get_resolution ⟨(w, h), len⟩ = classifySpec w h) ∧
    Metadata.get_resolution ⟨(1920, 1080), none⟩ = 1080 ∧
    Metadata.get_resolution ⟨(1920, 1088), none⟩ = 1080 ∧
    Metadata.get_resolution ⟨(3200, 1800), none⟩ = 1440 ∧
    Metadata.get_resolution ⟨(7680, 4321), none⟩ = 4321 := by
  refine ⟨fun w h len => ?_, by decide, by decide, by decide, by decide⟩
  simp [Metadata.get_resolution, classifySpec, pickTier_eq]

/-! ## Claim C9 : resolution positivity -/

/-- All dimension payloads occurring in a stream are nonzero. -/
def dimOk : MatroskaSpec → Bool
  | .PixelWidth n => n != 0
  | .PixelHeight n => n != 0
  | .DisplayWidth n => n != 0
  | .DisplayHeight n => n != 0
  | _ => true

/-- An optional field, when set, is nonzero. -/
def optPos : Option Nat → Bool
  | some n => n != 0
  | none => true

/-- All dimension fields of the accumulator, when set, are nonzero. -/
def dataDimOk (d : MatroskaData) : Bool :=
  optPos d.pixel_width && optPos d.pixel_height &&
  optPos d.display_width && optPos d.display_height

lemma dataDimOk_updateTag {d : MatroskaData} (h : dataDimOk d = true) {t : MatroskaSpec}
    (ht : dimOk t = true) : dataDimOk (updateTag d t) = true := by
  cases t <;> simp_all [updateTag, dimOk, dataDimOk, optPos]

lemma build_pos {d : MatroskaData} {m : Metadata} (h : dataDimOk d = true)
    (hb : d.build = some m) : 0 < m.resolution.1 ∧ 0 < m.resolution.2 := by
  simp only [MatroskaData.build] at hb
  rcases hc : d.is_complete with _ | _
  · rw [hc] at hb; simp at hb
  · rw [hc] at hb
    simp only [Bool.not_true, Bool.false_eq_true, if_false] at hb
    simp only [dataDimOk, Bool.and_eq_true] at h
    simp only [MatroskaData.is_complete, Bool.and_eq_true, Option.isSome_iff_exists] at hc
    obtain ⟨⟨⟨du, hdu⟩, ph, hph⟩, pw, hpw⟩ := hc
    rcases hdw : d.display_width with _ | dw <;> rcases hdh : d.display_height with _ | dh <;>
      rw [hdw, hdh] at hb h <;>
      simp_all [optPos, hpw, hph] <;>
      subst hb <;>
      simp_all [Nat.pos_of_ne_zero]

lemma loop_pos (l : List MatroskaSpec) (d : MatroskaData) (m : Metadata)
    (hd : dataDimOk d = true) (hl : l.all dimOk = true)
    (h : fromMatroskaLoop d l = .ok m) : 0 < m.resolution.1 ∧ 0 < m.resolution.2 := by
  induction l generalizing d with
  | nil => simp [fromMatroskaLoop] at h
  | cons t l ih =>
    simp only [List.all_cons, Bool.and_eq_true] at hl
    have hd' := dataDimOk_updateTag hd hl.1
    cases hc : (updateTag d t).is_complete with
    | true =>
      simp only [fromMatroskaLoop, hc, if_true] at h
      rcases hb : (updateTag d t).build with _ | m'
      · rw [hb] at h; cases h
      · rw [hb] at h
        cases h
        exact build_pos hd' hb
    | false =>
      simp only [fromMatroskaLoop, hc, Bool.false_eq_true, if_false] at h
      exact ih _ hd' hl.2 h

/-- Claim C9, amended: from_vertical_resolution yields positive
resolution components for vertical resolutions v with 9 ≤ v < 9·2^60
(in particular every classified quality tier); at v = 9·2^60 the u64
width multiplication wraps and the width is 0; and container extraction
yields positive components whenever all dimension payloads in the
stream are nonzero.  The defaulted quality value 0 (no quality marker in
the filename) violates the claim as stated, see the counterexample. -/
theorem spec_c9_amended :
    (∀ v len, 9 ≤ v → v < 9 * 2 ^ 60 →
      0 < (from_vertical_resolution v len).resolution.1 ∧
      0 < (from_vertical_resolution v len).resolution.2) ∧
    (from_vertical_resolution (9 * 2 ^ 60) none).resolution.1 = 0 ∧
    (∀ l m, from_matroska l = .ok m → l.all dimOk = true →
      0 < m.resolution.1 ∧ 0 < m.resolution.2) := by
  refine ⟨?_, by decide, ?_⟩
  · intro v len h hlt
    constructor
    · have h9 : 0 < v / 9 := Nat.div_pos h (by norm_num)
      have hb : v / 9 * 16 < 2 ^ 64 := by omega
      simp only [from_vertical_resolution, Nat.mod_eq_of_lt hb]
      exact Nat.mul_pos h9 (by norm_num : (0:Nat) < 16)
    · simp [from_vertical_resolution]; omega
  · intro l m h hall
    exact loop_pos l MatroskaData.default m (by rfl) hall h

/-- Witness for spec_c9_amended at concrete inputs: the filename-derived
metadata for quality 1080, and extraction from a stream with nonzero
dimensions. -/
theorem spec_c9_amended_witness :
    (9 ≤ 1080 ∧ 1080 < 9 * 2 ^ 60 ∧
      0 < (from_vertical_resolution 1080 none).resolution.1 ∧
      0 < (from_vertical_resolution 1080 none).resolution.2) ∧
    (from_matroska [.Duration 1, .PixelWidth 1920, .PixelHeight 1080] =
        .ok ⟨(1920, 1080), some 1⟩ ∧
      [MatroskaSpec.Duration 1, .PixelWidth 1920, .PixelHeight 1080].all dimOk = true ∧
      0 < (1920, 1080).1 ∧ 0 < (1920, 1080).2) :=
  ⟨⟨by decide, by decide, spec_c9_amended.1 1080 none (by decide) (by decide)⟩,
   ⟨rfl, rfl, by
      have := spec_c9_amended.2.2 [.Duration 1, .PixelWidth 1920, .PixelHeight 1080]
        ⟨(1920, 1080), some 1⟩ rfl rfl
      exact this⟩⟩

/-- Counterexample to claim C9 as stated: a filename with no quality
marker defaults the vertical resolution to 0 and the constructed
Metadata has resolution (0, 0). -/
theorem spec_c9_counterexample :
    metadataFromQuality none = from_vertical_resolution 0 none ∧
    (from_vertical_resolution 0 none).resolution = (0, 0) ∧
    ¬ (0 < (from_vertical_resolution 0 none).resolution.1 ∧
       0 < (from_vertical_resolution 0 none).resolution.2) :=
  ⟨rfl, rfl, by decide⟩

/-! ## Claim C8 : filename descriptor parser -/

lemma getD_ite_some_none {c : Prop} [Decidable c] (x : String) :
    (if c then some x else none).getD "" = if c then x else "" := by
  split <;> rfl

lemma from_path_info_episode {name : String} {e : Nat} (m : Metadata)
    (h : (parseStateOf name).episode = some e) :
    from_path_info name m = .Episode
      { episode := e
        season := (parseStateOf name).season.getD 1
        title :=
          if (parseStateOf name).episode_title_end - (parseStateOf name).title_end > 1 then
            String.intercalate " "
              (((partsOf name).drop ((parseStateOf name).title_end + 1)).take
                ((parseStateOf name).episode_title_end - ((parseStateOf name).title_end + 1)))
          else ""
        imdb_id := none
        series :=
          { title := String.intercalate " " ((partsOf name).take (parseStateOf name).title_end)
            release_year := 0
            imdb_id := none } } m := by
  simp only [parseStateOf] at h
  simp only [from_path_info, h, getD_ite_some_none, parseStateOf]

lemma from_path_info_movie {name : String} (m : Metadata)
    (h : (parseStateOf name).episode = none) :
    from_path_info name m = .Movie
      { title := String.intercalate " " ((partsOf name).take (parseStateOf name).title_end)
        release_year := 0
        imdb_id := none } m := by
  simp only [parseStateOf] at h
  simp only [from_path_info, h, parseStateOf]

/-- Claim C8: an e-digits marker makes the parse an Episode (season
defaulting to 1 when no s-marker parsed, episode title defaulting to
empty when the embedded segment between the title and quality boundaries
has fewer than 2 tokens); no episode marker yields a Movie regardless of
any quality marker; Show.Name.S02E05.1080p.mkv parses to season 2,
episode 5, series title Show Name (and quality hint 1080), and
Movie.Title.2160p.mp4 to a movie titled Movie Title. -/
theorem spec_c8 :
    (∀ name m e, (parseStateOf name).episode = some e →
      ∃ ep : Episode, from_path_info name m = .Episode ep m ∧
        ep.episode = e ∧
        ep.season = (parseStateOf name).season.getD 1 ∧
        ((parseStateOf name).season = none → ep.season = 1) ∧
        ((parseStateOf name).episode_title_end - (parseStateOf name).title_end ≤ 1 →
          ep.title = "") ∧
        ep.series.title =
          String.intercalate " " ((partsOf name).take (parseStateOf name).title_end)) ∧
    (∀ name m, (parseStateOf name).episode = none →
      from_path_info name m = .Movie
        { title := String.intercalate " " ((partsOf name).take (parseStateOf name).title_end)
          release_year := 0
          imdb_id := none } m) ∧
    (∀ m, from_path_info "Show.Name.S02E05.1080p.mkv" m =
      .Episode ⟨5, 2, "", none, ⟨"Show Name", 0, none⟩⟩ m) ∧
    (parseStateOf "Show.Name.S02E05.1080p.mkv").quality = some 1080 ∧
    (∀ m, from_path_info "Movie.Title.2160p.mp4" m =
      .Movie ⟨"Movie Title", 0, none⟩ m) ∧
    (parseStateOf "Movie.Title.2160p.mp4").quality = some 2160 := by
  refine ⟨fun name m e h => ?_, fun name m h => from_path_info_movie m h,
    fun m => ?_, by decide, fun m => ?_, by decide⟩
  · refine ⟨_, from_path_info_episode m h, rfl, rfl, fun hs => by simp [hs], fun hle => ?_, rfl⟩
    simp only
    rw [if_neg (by omega)]
  · rw [from_path_info_episode (e := 5) m (by decide)]
    congr 1
  · rw [from_path_info_movie m (by decide)]
    congr 1

/-- Witness for spec_c8 at concrete inputs, exercising both the episode
hypothesis and the movie hypothesis. -/
theorem spec_c8_witness :
    ((parseStateOf "Show.Name.S02E05.1080p.mkv").episode = some 5 ∧
      ∃ ep : Episode,
        from_path_info "Show.Name.S02E05.1080p.mkv" ⟨(1920, 1080), none⟩ = .Episode ep
          ⟨(1920, 1080), none⟩ ∧
        ep.episode = 5 ∧
        ep.season = (parseStateOf "Show.Name.S02E05.1080p.mkv").season.getD 1 ∧
        ((parseStateOf "Show.Name.S02E05.1080p.mkv").season = none → ep.season = 1) ∧
        ((parseStateOf "Show.Name.S02E05.1080p.mkv").episode_title_end -
            (parseStateOf "Show.Name.S02E05.1080p.mkv").title_end ≤ 1 → ep.title = "") ∧
        ep.series.title = String.intercalate " "
          ((partsOf "Show.Name.S02E05.1080p.mkv").take
            (parseStateOf "Show.Name.S02E05.1080p.mkv").title_end)) ∧
    ((parseStateOf "Movie.Title.2160p.mp4").episode = none ∧
      from_path_info "Movie.Title.2160p.mp4" ⟨(0, 0), none⟩ = .Movie
        { title := String.intercalate " "
            ((partsOf "Movie.Title.2160p.mp4").take
              (parseStateOf "Movie.Title.2160p.mp4").title_end)
          release_year := 0
          imdb_id := none } ⟨(0, 0), none⟩) :=
  ⟨⟨by decide, spec_c8.1 "Show.Name.S02E05.1080p.mkv" ⟨(1920, 1080), none⟩ 5 (by decide)⟩,
   ⟨by decide, spec_c8.2.1 "Movie.Title.2160p.mp4" ⟨(0, 0), none⟩ (by decide)⟩⟩

/-! ## video.rs : metadata injection engine (`Video::insert_into_matroska`)

The engine consumes the tag stream produced by
`WebmIterator::new(from, &[MatroskaSpec::SimpleTag(Master::Start)])` —
i.e. every master element arrives as Start/End events except SimpleTag,
which arrives as one Full subtree — and writes tags to a `WebmWriter`.
The write calls are modelled by list concatenation; the two
`unreachable!()` arms abort with `none`.  The `HashMap<&str, &str>` tag
dictionary is modelled as an association list with distinct literal keys
(its iteration order is unspecified in Rust; the list order stands in for
it, and no claim depends on that order). -/

/-- The tag dictionary. -/
abbrev TagDict := List (String × String)

/-- `HashMap::contains_key`. -/
def containsKey (d : TagDict) (k : String) : Bool :=
  d.any (fun p => p.1 == k)

/-- The engine's own simple-tag block: one SimpleTag Start / TagName /
TagString / SimpleTag End quadruple per dictionary entry with non-empty
value (video.rs lines 274-281 and 338-345). -/
def synthSimpleTags (d : TagDict) : List MatroskaSpec :=
  match d with
  | [] => []
  | p :: rest =>
    (if p.2.length > 0 then
      [.SimpleTag .Start, .TagName p.1, .TagString p.2, .SimpleTag .End]
    else []) ++ synthSimpleTags rest

/-- The engine's synthesized Tag entry: Tag Start, an empty Targets
scope, the simple tags, Tag End (video.rs lines 272-282 and 336-346). -/
def synthTagEntry (d : TagDict) : List MatroskaSpec :=
  [.Tag .Start, .Targets (.Full [])] ++ synthSimpleTags d ++ [.Tag .End]

/-- The section starts that trigger Info synthesis when no Info has been
written yet (video.rs lines 254-259). -/
def isTriggerStart : MatroskaSpec → Bool
  | .Tracks .Start => true
  | .Chapters .Start => true
  | .Cluster .Start => true
  | .Cues .Start => true
  | .Attachments .Start => true
  | .Tags .Start => true
  | _ => false

/-- `tag_data.iter().find` for a TagName child (video.rs lines 307-310). -/
def isTagNameTag : MatroskaSpec → Bool
  | .TagName _ => true
  | _ => false

/-- `tag_data.iter().find` for a TagString child (video.rs lines 311-314). -/
def isTagStringTag : MatroskaSpec → Bool
  | .TagString _ => true
  | _ => false

def findTagName (l : List MatroskaSpec) : Option MatroskaSpec := l.find? isTagNameTag

def findTagString (l : List MatroskaSpec) : Option MatroskaSpec := l.find? isTagStringTag

/-- The engine's mutable flags (video.rs lines 195-201). -/
structure EngineState : Type where
  info_written : Bool
  tags_written : Bool
  in_info : Bool
  in_tags : Bool
  in_tag : Bool
deriving DecidableEq

/-- Processing of one non-Info tag after the Info-synthesis check
(video.rs lines 268-331): the Tags open/close handling with the
synthesized entry flushed at Tags End, the in-Info Title drop, the
in-Tags SimpleTag merge (with the two `unreachable!()` arms as `none`),
and the default pass-through write. -/
def stepTail (tags : TagDict) (st : EngineState) (t : MatroskaSpec) :
    Option (EngineState × List MatroskaSpec) :=
  match t with
  | .Tags .Start => some ({ st with in_tags := true }, [.Tags .Start])
  | .Tags .End =>
    some ({ st with in_tags := false, tags_written := true },
      synthTagEntry tags ++ [.Tags .End])
  | .Tags (.Full ch) => some (st, [.Tags (.Full ch)])
  | t =>
    if st.in_info then
      match t with
      | .Title _ => some (st, [])
      | t => some (st, [t])
    else if st.in_tags then
      match t with
      | .SimpleTag (.Full tag_data) =>
        if st.in_tag then
          match findTagName tag_data, findTagString tag_data with
          | some (.TagName name), some (.TagString _) =>
            if containsKey tags name then some (st, [])
            else some (st, [.SimpleTag (.Full tag_data)])
          | _, _ => some (st, [])
        else none
      | .SimpleTag _ => none
      | .Tag .Start => some ({ st with in_tag := true }, [.Tag .Start])
      | .Tag .End => some ({ st with in_tag := false }, [.Tag .End])
      | t => some (st, [t])
    else some (st, [t])

/-- Processing of one tag of the loop body (video.rs lines 237-332): the
Info open/close handling writes the Title just before Info End; for any
other tag, a section start seen before an Info was written causes the
synthesized `Info(Full([Title]))` to be emitted first. -/
def step (title : String) (tags : TagDict) (st : EngineState) (t : MatroskaSpec) :
    Option (EngineState × List MatroskaSpec) :=
  match t with
  | .Info .Start => some ({ st with in_info := true }, [.Info .Start])
  | .Info .End =>
    some ({ st with in_info := false, info_written := true }, [.Title title, .Info .End])
  | .Info (.Full ch) => some (st, [.Info (.Full ch)])
  | t =>
    if isTriggerStart t && !st.info_written then
      match stepTail tags { st with info_written := true } t with
      | some (st2, out) => some (st2, .Info (.Full [.Title title]) :: out)
      | none => none
    else stepTail tags st t

/-- The whole `for tag in reader` loop. -/
def runTags (title : String) (tags : TagDict) (st : EngineState) :
    List MatroskaSpec → Option (EngineState × List MatroskaSpec)
  | [] => some (st, [])
  | t :: rest =>
    match step title tags st t with
    | none => none
    | some (st1, out) =>
      match runTags title tags st1 rest with
      | none => none
      | some (st2, out2) => some (st2, out ++ out2)

/-- `Video::insert_into_matroska`, lines 237-350: run the loop from the
all-false initial state and append a whole Tags section at the end when
none was seen (video.rs lines 334-348). -/
def insertLoop (title : String) (tags : TagDict) (input : List MatroskaSpec) :
    Option (List MatroskaSpec) :=
  match runTags title tags ⟨false, false, false, false, false⟩ input with
  | none => none
  | some (st, out) =>
    if !st.tags_written then
      some (out ++ [.Tags .Start] ++ synthTagEntry tags ++ [.Tags .End])
    else some out

/-- The tag dictionary `insert_into_matroska` builds from the `Video`'s
`VideoData` (video.rs lines 208-235): COMMENT is always present with an
empty value; TITLE and DATE_RELEASED always; SEASON and EPISODE only for
episodes; IMDB only when an imdb_id is present.  The HashMap keys are
the distinct literals, so insertion order is kept as the list order. -/
def buildTags : VideoData → TagDict
  | .Movie ent _ =>
    [("COMMENT", ""), ("TITLE", ent.title), ("DATE_RELEASED", toString ent.release_year)] ++
      (match ent.imdb_id with
       | some imdb_id => [("IMDB", imdb_id)]
       | none => [])
  | .Episode ep _ =>
    [("COMMENT", ""), ("TITLE", ep.series.title),
     ("DATE_RELEASED", toString ep.series.release_year),
     ("SEASON", toString ep.season), ("EPISODE", toString ep.episode)] ++
      (match ep.imdb_id with
       | some imdb_id => [("IMDB", imdb_id)]
       | none => [])

/-- The Title payload `insert_into_matroska` writes (video.rs lines
210-235): the movie's title, or the episode's own title. -/
def titleOf : VideoData → String
  | .Movie ent _ => ent.title
  | .Episode ep _ => ep.title

/-- `Video::insert_into_matroska` for a whole `Video` descriptor. -/
def insert_into_matroska (info : VideoData) (input : List MatroskaSpec) :
    Option (List MatroskaSpec) :=
  insertLoop (titleOf info) (buildTags info) input

/-! ## Well-formed source streams

Claims C1-C4 quantify over well-formed source tag streams.  Well-formed
streams are represented structurally: a list of items, each either a
plain pass-through event, an Info section (Start, scalar body, End) or a
Tags section (Start, a list of Tag entries, End); each Tag entry is a
Tag Start / children / Tag End block whose children are SimpleTag Full
subtrees or plain scalars.  This matches what the configured reader can
deliver for a Matroska file: every master element arrives as Start/End
events except SimpleTag (buffered to Full), Info and Tags appear only at
top level, SimpleTags only inside Tag entries, and every SimpleTag
carries a TagName and a TagString child. -/

/-- Concatenation of the images of a list under a list-valued map. -/
def cmap (f : α → List β) : List α → List β
  | [] => []
  | a :: l => f a ++ cmap f l

lemma cmap_append (f : α → List β) (a b : List α) :
    cmap f (a ++ b) = cmap f a ++ cmap f b := by
  induction a with
  | nil => rfl
  | cons x a ih => simp [cmap, ih]

/-- A child of an existing Tag entry. -/
inductive TagChild : Type where
  | simple : List MatroskaSpec → TagChild
  | plain : MatroskaSpec → TagChild

/-- A top-level item of a well-formed stream. -/
inductive Item : Type where
  | plain : MatroskaSpec → Item
  | infoSec : List MatroskaSpec → Item
  | tagsSec : List (List TagChild) → Item

/-- Event sequence of one Tag-entry child. -/
def TagChild.flat : TagChild → List MatroskaSpec
  | .simple data => [.SimpleTag (.Full data)]
  | .plain t => [t]

/-- Event sequence of one existing Tag entry. -/
def entryFlat (e : List TagChild) : List MatroskaSpec :=
  [.Tag .Start] ++ cmap TagChild.flat e ++ [.Tag .End]

/-- Event sequence of one item. -/
def Item.flat : Item → List MatroskaSpec
  | .plain t => [t]
  | .infoSec body => [.Info .Start] ++ body ++ [.Info .End]
  | .tagsSec entries => [.Tags .Start] ++ cmap entryFlat entries ++ [.Tags .End]

/-- Event sequence of a whole structured stream. -/
def flattenItems (items : List Item) : List MatroskaSpec :=
  cmap Item.flat items

/-- Events allowed as plain top-level items: anything the engine passes
through untouched, in the Start/End form the configured reader delivers
(no Full master except SimpleTag, and that only inside Tag entries). -/
def plainTopOk : MatroskaSpec → Bool
  | .Duration _ => true
  | .PixelWidth _ => true
  | .PixelHeight _ => true
  | .DisplayWidth _ => true
  | .DisplayHeight _ => true
  | .Other _ => true
  | .Tracks .Start => true
  | .Tracks .End => true
  | .Chapters .Start => true
  | .Chapters .End => true
  | .Cluster .Start => true
  | .Cluster .End => true
  | .Cues .Start => true
  | .Cues .End => true
  | .Attachments .Start => true
  | .Attachments .End => true
  | _ => false

/-- Events allowed inside an Info section body: scalar children only. -/
def infoChildOk : MatroskaSpec → Bool
  | .Title _ => true
  | .Duration _ => true
  | .PixelWidth _ => true
  | .PixelHeight _ => true
  | .DisplayWidth _ => true
  | .DisplayHeight _ => true
  | .Other _ => true
  | _ => false

/-- Plain events allowed inside an existing Tag entry. -/
def tagChildPlainOk : MatroskaSpec → Bool
  | .Targets .Start => true
  | .Targets .End => true
  | .Other _ => true
  | _ => false

/-- A SimpleTag subtree holding both a TagName and a TagString child. -/
def simpleDataOk (data : List MatroskaSpec) : Bool :=
  match findTagName data, findTagString data with
  | some (.TagName _), some (.TagString _) => true
  | _, _ => false

def TagChild.ok : TagChild → Bool
  | .simple data => simpleDataOk data
  | .plain t => tagChildPlainOk t

def Item.ok : Item → Bool
  | .plain t => plainTopOk t
  | .infoSec body => body.all infoChildOk
  | .tagsSec entries => entries.all (fun e => e.all TagChild.ok)

def isInfoSecB : Item → Bool
  | .infoSec _ => true
  | _ => false

def isTagsSecB : Item → Bool
  | .tagsSec _ => true
  | _ => false

/-- Well-formed stream: every item well-formed and at most one Info and
one Tags section (Matroska restricts them to one per segment). -/
def wfStream (items : List Item) : Bool :=
  items.all Item.ok && items.countP isInfoSecB ≤ 1 && items.countP isTagsSecB ≤ 1

/-! ## Expected engine output over structured streams -/

/-- Title-kindness of an event (used to state C2). -/
def isTitleEvt : MatroskaSpec → Bool
  | .Title _ => true
  | _ => false

/-- Info-kindness of an event (any structural mode; used for C2/C3). -/
def isInfoEvt : MatroskaSpec → Bool
  | .Info _ => true
  | _ => false

/-- Tags-kindness of an event (any structural mode; used for C1). -/
def isTagsEvt : MatroskaSpec → Bool
  | .Tags _ => true
  | _ => false

/-- What the engine's in-Tags merge does to one entry child: a SimpleTag
with a TagName/TagString pair is kept exactly when its name is not a
dictionary key, a SimpleTag lacking the pair is dropped, everything else
passes through. -/
def mergeChild (tags : TagDict) : TagChild → List MatroskaSpec
  | .simple data =>
    match findTagName data, findTagString data with
    | some (.TagName name), some (.TagString _) =>
      if containsKey tags name then [] else [.SimpleTag (.Full data)]
    | _, _ => []
  | .plain t => [t]

/-- The merge over one existing Tag entry (the Tag Start/End wrappers
pass through). -/
def mergeEntry (tags : TagDict) (e : List TagChild) : List MatroskaSpec :=
  [.Tag .Start] ++ cmap (mergeChild tags) e ++ [.Tag .End]

/-- Whether, after this item, an Info has been written. -/
def itemIW (iw : Bool) : Item → Bool
  | .plain t => iw || isTriggerStart t
  | .infoSec _ => true
  | .tagsSec _ => true

/-- The engine's output for one item, given whether an Info has been
written before it. -/
def itemOut (title : String) (tags : TagDict) (iw : Bool) : Item → List MatroskaSpec
  | .plain t =>
    (if isTriggerStart t && !iw then [.Info (.Full [.Title title])] else []) ++ [t]
  | .infoSec body =>
    [.Info .Start] ++ body.filter (fun t => !isTitleEvt t) ++ [.Title title, .Info .End]
  | .tagsSec entries =>
    (if !iw then [.Info (.Full [.Title title])] else []) ++
      [.Tags .Start] ++ cmap (mergeEntry tags) entries ++ synthTagEntry tags ++ [.Tags .End]

/-- The engine's output for a list of items. -/
def itemsOut (title : String) (tags : TagDict) (iw : Bool) : List Item → List MatroskaSpec
  | [] => []
  | i :: rest => itemOut title tags iw i ++ itemsOut title tags (itemIW iw i) rest

/-! ## Run lemmas for the injection engine -/

lemma runTags_singleton (title : String) (tags : TagDict) (st : EngineState) (t : MatroskaSpec) :
    runTags title tags st [t] = step title tags st t := by
  cases h : step title tags st t with
  | none => simp [runTags, h]
  | some p => simp [runTags, h]

lemma runTags_append (title : String) (tags : TagDict) (a b : List MatroskaSpec)
    (st : EngineState) :
    runTags title tags st (a ++ b) =
      match runTags title tags st a with
      | none => none
      | some (st1, out1) =>
        match runTags title tags st1 b with
        | none => none
        | some (st2, out2) => some (st2, out1 ++ out2) := by
  induction a generalizing st with
  | nil =>
    simp only [List.nil_append, runTags]
    cases runTags title tags st b with
    | none => rfl
    | some p => simp
  | cons t a ih =>
    simp only [List.cons_append, runTags]
    cases step title tags st t with
    | none => rfl
    | some p =>
      obtain ⟨st1, out⟩ := p
      dsimp only
      simp only [List.append_eq]
      rw [ih st1]
      cases runTags title tags st1 a with
      | none => rfl
      | some q =>
        obtain ⟨st2, out2⟩ := q
        dsimp only
        cases runTags title tags st2 b with
        | none => rfl
        | some r => simp [List.append_assoc]

lemma stepTail_simple (tags : TagDict) (st : EngineState) (data : List MatroskaSpec)
    (h1 : st.in_info = false) (h2 : st.in_tags = true) (h3 : st.in_tag = true) :
    stepTail tags st (.SimpleTag (.Full data)) = some (st, mergeChild tags (.simple data)) := by
  cases hn : findTagName data with
  | none => simp [stepTail, mergeChild, h1, h2, h3, hn]
  | some t1 =>
    cases hs : findTagString data with
    | none => cases t1 <;> simp [stepTail, mergeChild, h1, h2, h3, hn, hs]
    | some t2 =>
      cases t1 <;> cases t2 <;>
        simp [stepTail, mergeChild, h1, h2, h3, hn, hs, apply_ite]

lemma run_infoBody (title : String) (tags : TagDict) (body : List MatroskaSpec)
    (h : body.all infoChildOk = true) (iw tw : Bool) :
    runTags title tags ⟨iw, tw, true, false, false⟩ body =
      some (⟨iw, tw, true, false, false⟩, body.filter (fun t => !isTitleEvt t)) := by
  induction body with
  | nil => rfl
  | cons t body ih =>
    simp only [List.all_cons, Bool.and_eq_true] at h
    have ih' := ih h.2
    have h1 := h.1
    cases t <;>
      simp_all [runTags, step, stepTail, isTriggerStart, infoChildOk, isTitleEvt,
        List.filter_cons]

lemma run_entryChildren (title : String) (tags : TagDict) (cs : List TagChild)
    (h : cs.all TagChild.ok = true) (iw tw : Bool) :
    runTags title tags ⟨iw, tw, false, true, true⟩ (cmap TagChild.flat cs) =
      some (⟨iw, tw, false, true, true⟩, cmap (mergeChild tags) cs) := by
  induction cs with
  | nil => rfl
  | cons c cs ih =>
    simp only [List.all_cons, Bool.and_eq_true] at h
    have ih' := ih h.2
    cases c with
    | simple data =>
      have hst := stepTail_simple tags ⟨iw, tw, false, true, true⟩ data rfl rfl rfl
      have hstep : step title tags ⟨iw, tw, false, true, true⟩ (.SimpleTag (.Full data)) =
          some (⟨iw, tw, false, true, true⟩, mergeChild tags (.simple data)) := by
        simp [step, isTriggerStart, hst]
      simp [cmap, TagChild.flat, runTags, hstep, ih']
    | plain t =>
      have h1 := h.1
      cases t <;>
        simp_all [cmap, TagChild.flat, runTags, step, stepTail, isTriggerStart,
          tagChildPlainOk, TagChild.ok, mergeChild]

lemma run_entry (title : String) (tags : TagDict) (e : List TagChild)
    (he : e.all TagChild.ok = true) (iw tw : Bool) :
    runTags title tags ⟨iw, tw, false, true, false⟩ (entryFlat e) =
      some (⟨iw, tw, false, true, false⟩, mergeEntry tags e) := by
  have h1 : step title tags ⟨iw, tw, false, true, false⟩ (.Tag .Start) =
      some (⟨iw, tw, false, true, true⟩, [.Tag .Start]) := by
    simp [step, stepTail, isTriggerStart]
  have h2 : step title tags ⟨iw, tw, false, true, true⟩ (.Tag .End) =
      some (⟨iw, tw, false, true, false⟩, [.Tag .End]) := by
    simp [step, stepTail, isTriggerStart]
  simp only [entryFlat, mergeEntry, runTags_append, runTags_singleton, h1, h2,
    run_entryChildren title tags e he iw tw]

lemma run_entries (title : String) (tags : TagDict) (entries : List (List TagChild))
    (h : entries.all (fun e => e.all TagChild.ok) = true) (iw tw : Bool) :
    runTags title tags ⟨iw, tw, false, true, false⟩ (cmap entryFlat entries) =
      some (⟨iw, tw, false, true, false⟩, cmap (mergeEntry tags) entries) := by
  induction entries with
  | nil => rfl
  | cons e entries ih =>
    simp only [List.all_cons, Bool.and_eq_true] at h
    simp only [cmap, runTags_append, run_entry title tags e h.1 iw tw, ih h.2]

lemma run_item (title : String) (tags : TagDict) (i : Item) (hi : i.ok = true) (iw tw : Bool) :
    runTags title tags ⟨iw, tw, false, false, false⟩ i.flat =
      some (⟨itemIW iw i, tw || isTagsSecB i, false, false, false⟩, itemOut title tags iw i) := by
  cases i with
  | plain t =>
    simp only [Item.ok] at hi
    rw [Item.flat, runTags_singleton]
    cases t <;>
      (rename_i m
       cases m <;> cases iw <;>
         simp_all [plainTopOk, step, stepTail, isTriggerStart, itemOut, itemIW, isTagsSecB])
  | infoSec body =>
    simp only [Item.ok] at hi
    have h1 : step title tags ⟨iw, tw, false, false, false⟩ (.Info .Start) =
        some (⟨iw, tw, true, false, false⟩, [.Info .Start]) := by
      simp [step]
    have h2 : step title tags ⟨iw, tw, true, false, false⟩ (.Info .End) =
        some (⟨true, tw, false, false, false⟩, [.Title title, .Info .End]) := by
      simp [step]
    simp only [Item.flat, runTags_append, runTags_singleton, h1,
      run_infoBody title tags body hi iw tw, h2, itemOut, itemIW, isTagsSecB]
    simp
  | tagsSec entries =>
    simp only [Item.ok] at hi
    cases iw with
    | false =>
      have h1 : step title tags ⟨false, tw, false, false, false⟩ (.Tags .Start) =
          some (⟨true, tw, false, true, false⟩,
            [.Info (.Full [.Title title]), .Tags .Start]) := by
        simp [step, stepTail, isTriggerStart]
      have h2 : step title tags ⟨true, tw, false, true, false⟩ (.Tags .End) =
          some (⟨true, true, false, false, false⟩, synthTagEntry tags ++ [.Tags .End]) := by
        simp [step, stepTail, isTriggerStart]
      simp only [Item.flat, runTags_append, runTags_singleton, h1,
        run_entries title tags entries hi true tw, h2, itemOut, itemIW, isTagsSecB]
      simp
    | true =>
      have h1 : step title tags ⟨true, tw, false, false, false⟩ (.Tags .Start) =
          some (⟨true, tw, false, true, false⟩, [.Tags .Start]) := by
        simp [step, stepTail, isTriggerStart]
      have h2 : step title tags ⟨true, tw, false, true, false⟩ (.Tags .End) =
          some (⟨true, true, false, false, false⟩, synthTagEntry tags ++ [.Tags .End]) := by
        simp [step, stepTail, isTriggerStart]
      simp only [Item.flat, runTags_append, runTags_singleton, h1,
        run_entries title tags entries hi true tw, h2, itemOut, itemIW, isTagsSecB]
      simp

lemma run_items (title : String) (tags : TagDict) (items : List Item)
    (h : items.all Item.ok = true) (iw tw : Bool) :
    runTags title tags ⟨iw, tw, false, false, false⟩ (flattenItems items) =
      some (⟨items.foldl itemIW iw, tw || items.any isTagsSecB, false, false, false⟩,
        itemsOut title tags iw items) := by
  induction items generalizing iw tw with
  | nil => simp [flattenItems, cmap, runTags, itemsOut]
  | cons i items ih =>
    simp only [List.all_cons, Bool.and_eq_true] at h
    have hrest : runTags title tags
        ⟨itemIW iw i, tw || isTagsSecB i, false, false, false⟩ (cmap Item.flat items) =
        some (⟨items.foldl itemIW (itemIW iw i), (tw || isTagsSecB i) || items.any isTagsSecB,
          false, false, false⟩, itemsOut title tags (itemIW iw i) items) :=
      ih h.2 (itemIW iw i) (tw || isTagsSecB i)
    simp only [flattenItems, cmap, runTags_append, run_item title tags i h.1 iw tw, hrest]
    simp [itemsOut, Bool.or_assoc]

/-- `insert_into_matroska` on a whole well-formed stream: the loop output
per item, with a full Tags section appended when the source had none. -/
lemma insertLoop_items (title : String) (tags : TagDict) (items : List Item)
    (h : items.all Item.ok = true) :
    insertLoop title tags (flattenItems items) =
      some (itemsOut title tags false items ++
        (if items.any isTagsSecB then []
         else [.Tags .Start] ++ synthTagEntry tags ++ [.Tags .End])) := by
  simp only [insertLoop, run_items title tags items h false false, Bool.false_or]
  cases hA : items.any isTagsSecB <;> simp

/-! ## Event-class facts about engine outputs -/

/-- Event is none of Info / Title / Tags (the kinds the engine treats
specially at top level). -/
def passEvt (t : MatroskaSpec) : Bool :=
  !(isInfoEvt t || isTitleEvt t || isTagsEvt t)

/-- Event is not Info and not Title (used for C2/C3). -/
def notInfoTitle (t : MatroskaSpec) : Bool := !(isInfoEvt t || isTitleEvt t)

/-- Event is not a Tags event (used for C1). -/
def notTags (t : MatroskaSpec) : Bool := !isTagsEvt t

lemma passEvt_notInfoTitle {t : MatroskaSpec} (h : passEvt t = true) :
    notInfoTitle t = true := by
  simp only [passEvt, Bool.not_eq_true', Bool.or_eq_false_iff] at h
  simp [notInfoTitle, h.1.1, h.1.2]

lemma passEvt_notTags {t : MatroskaSpec} (h : passEvt t = true) : notTags t = true := by
  simp only [passEvt, Bool.not_eq_true', Bool.or_eq_false_iff] at h
  simp [notTags, h.2]

lemma notInfoTitle_notInfo {t : MatroskaSpec} (h : notInfoTitle t = true) :
    (!isInfoEvt t) = true := by
  simp [notInfoTitle] at h
  simp [h.1]

lemma all_weaken {l : List α} {p q : α → Bool} (h : l.all p = true)
    (hpq : ∀ a, p a = true → q a = true) : l.all q = true := by
  simp only [List.all_eq_true] at *
  exact fun a ha => hpq a (h a ha)

lemma all_filter_of_all {l : List α} {p q : α → Bool} (h : l.all p = true) :
    (l.filter q).all p = true := by
  simp only [List.all_eq_true] at *
  exact fun a ha => h a (List.mem_of_mem_filter ha)

lemma plainTopOk_pass {t : MatroskaSpec} (h : plainTopOk t = true) : passEvt t = true := by
  cases t <;> simp_all [plainTopOk, passEvt, isInfoEvt, isTitleEvt, isTagsEvt]

lemma infoChildOk_pass {t : MatroskaSpec} (h : infoChildOk t = true) :
    (!isTagsEvt t) = true ∧ (!isInfoEvt t) = true := by
  cases t <;> simp_all [infoChildOk, isInfoEvt, isTagsEvt]

lemma tagChildPlainOk_pass {t : MatroskaSpec} (h : tagChildPlainOk t = true) :
    passEvt t = true := by
  cases t <;> simp_all [tagChildPlainOk, passEvt, isInfoEvt, isTitleEvt, isTagsEvt]

lemma synthSimpleTags_pass (d : TagDict) : (synthSimpleTags d).all passEvt = true := by
  induction d with
  | nil => rfl
  | cons p d ih =>
    simp only [synthSimpleTags, List.all_append, Bool.and_eq_true]
    refine ⟨?_, ih⟩
    split <;> simp [passEvt, isInfoEvt, isTitleEvt, isTagsEvt]

lemma passEvt_Tag (m : Master MatroskaSpec) : passEvt (.Tag m) = true := by
  simp [passEvt, isInfoEvt, isTitleEvt, isTagsEvt]

lemma passEvt_Targets (m : Master MatroskaSpec) : passEvt (.Targets m) = true := by
  simp [passEvt, isInfoEvt, isTitleEvt, isTagsEvt]

lemma synthTagEntry_pass (tags : TagDict) : (synthTagEntry tags).all passEvt = true := by
  simp [synthTagEntry, List.all_append, synthSimpleTags_pass, passEvt_Tag, passEvt_Targets]

lemma mergeChild_pass (tags : TagDict) (c : TagChild) (hc : c.ok = true) :
    (mergeChild tags c).all passEvt = true := by
  cases c with
  | simple data =>
    simp only [mergeChild]
    cases findTagName data with
    | none => rfl
    | some t1 =>
      cases findTagString data with
      | none => cases t1 <;> rfl
      | some t2 =>
        cases t1 <;> cases t2 <;>
          first
          | rfl
          | (split <;> simp [passEvt, isInfoEvt, isTitleEvt, isTagsEvt])
  | plain t =>
    simp only [mergeChild, List.all_cons, List.all_nil, Bool.and_true]
    exact tagChildPlainOk_pass hc

lemma cmap_mergeChild_pass (tags : TagDict) (e : List TagChild)
    (he : e.all TagChild.ok = true) :
    (cmap (mergeChild tags) e).all passEvt = true := by
  induction e with
  | nil => rfl
  | cons c e ih =>
    simp only [List.all_cons, Bool.and_eq_true] at he
    simp only [cmap, List.all_append, Bool.and_eq_true]
    exact ⟨mergeChild_pass tags c he.1, ih he.2⟩

lemma mergeEntry_pass (tags : TagDict) (e : List TagChild) (he : e.all TagChild.ok = true) :
    (mergeEntry tags e).all passEvt = true := by
  simp [mergeEntry, List.all_append, cmap_mergeChild_pass tags e he, passEvt_Tag]

lemma cmap_mergeEntry_pass (tags : TagDict) (entries : List (List TagChild))
    (h : entries.all (fun e => e.all TagChild.ok) = true) :
    (cmap (mergeEntry tags) entries).all passEvt = true := by
  induction entries with
  | nil => rfl
  | cons e entries ih =>
    simp only [List.all_cons, Bool.and_eq_true] at h
    simp only [cmap, List.all_append, Bool.and_eq_true]
    exact ⟨mergeEntry_pass tags e h.1, ih h.2⟩

/-! ## Output shape lemmas -/

/-- Item is a plain event that triggers nothing. -/
def isPlainNonTrigger : Item → Bool
  | .plain t => !isTriggerStart t
  | _ => false

/-- Item whose first event is one of the Info-synthesis triggers. -/
def isTriggerItem : Item → Bool
  | .plain t => isTriggerStart t
  | .tagsSec _ => true
  | .infoSec _ => false

lemma itemIW_true (i : Item) : itemIW true i = true := by
  cases i <;> simp [itemIW]

lemma foldl_itemIW_true (items : List Item) : items.foldl itemIW true = true := by
  induction items with
  | nil => rfl
  | cons i items ih => simp [List.foldl_cons, itemIW_true, ih]

lemma itemsOut_append (title : String) (tags : TagDict) (a b : List Item) (iw : Bool) :
    itemsOut title tags iw (a ++ b) =
      itemsOut title tags iw a ++ itemsOut title tags (a.foldl itemIW iw) b := by
  induction a generalizing iw with
  | nil => simp [itemsOut]
  | cons i a ih => simp [itemsOut, List.foldl_cons, ih, List.append_assoc]

lemma itemsOut_plain_pre (title : String) (tags : TagDict) (pre : List Item)
    (h : pre.all isPlainNonTrigger = true) :
    itemsOut title tags false pre = flattenItems pre ∧ pre.foldl itemIW false = false := by
  induction pre with
  | nil => exact ⟨rfl, rfl⟩
  | cons i pre ih =>
    simp only [List.all_cons, Bool.and_eq_true] at h
    obtain ⟨ih1, ih2⟩ := ih h.2
    cases i with
    | plain t =>
      have ht : isTriggerStart t = false := by
        simpa [isPlainNonTrigger] using h.1
      constructor
      · simp [itemsOut, itemOut, itemIW, ht, ih1, flattenItems, cmap, Item.flat]
      · simp [List.foldl_cons, itemIW, ht, ih2]
    | infoSec body => simp [isPlainNonTrigger] at h
    | tagsSec entries => simp [isPlainNonTrigger] at h

lemma flattenItems_plain_pass (items : List Item) (h : items.all Item.ok = true)
    (hp : items.all isPlainNonTrigger = true) :
    (flattenItems items).all passEvt = true := by
  induction items with
  | nil => rfl
  | cons i items ih =>
    simp only [List.all_cons, Bool.and_eq_true] at h hp
    cases i with
    | plain t =>
      simp only [flattenItems, cmap, Item.flat, List.singleton_append, List.all_cons,
        Bool.and_eq_true]
      exact ⟨plainTopOk_pass h.1, ih h.2 hp.2⟩
    | infoSec body => simp [isPlainNonTrigger] at hp
    | tagsSec entries => simp [isPlainNonTrigger] at hp

lemma all_append2 {p : α → Bool} {l1 l2 : List α} (a : l1.all p = true)
    (b : l2.all p = true) : (l1 ++ l2).all p = true := by
  simp [List.all_append, a, b]

lemma itemOut_notTags (title : String) (tags : TagDict) (iw : Bool) (i : Item)
    (hi : i.ok = true) (h2 : isTagsSecB i = false) :
    (itemOut title tags iw i).all notTags = true := by
  cases i with
  | plain t =>
    refine all_append2 ?_ ?_
    · split <;> simp [notTags, isTagsEvt]
    · simpa [notTags] using passEvt_notTags (plainTopOk_pass hi)
  | infoSec body =>
    refine all_append2 (all_append2 ?_ ?_) ?_
    · simp [notTags, isTagsEvt]
    · exact all_weaken (all_filter_of_all hi)
        (fun a ha => by simpa [notTags] using (infoChildOk_pass ha).1)
    · simp [notTags, isTagsEvt]
  | tagsSec entries => simp [isTagsSecB] at h2

lemma itemsOut_notTags (title : String) (tags : TagDict) (items : List Item) (iw : Bool)
    (h : items.all Item.ok = true) (h2 : items.all (fun i => !isTagsSecB i) = true) :
    (itemsOut title tags iw items).all notTags = true := by
  induction items generalizing iw with
  | nil => rfl
  | cons i items ih =>
    simp only [List.all_cons, Bool.and_eq_true] at h h2
    simp only [itemsOut]
    exact all_append2 (itemOut_notTags title tags iw i h.1 (by simpa using h2.1))
      (ih _ h.2 h2.2)

lemma itemOut_notInfoTitle (title : String) (tags : TagDict) (i : Item)
    (hi : i.ok = true) (h2 : isInfoSecB i = false) :
    (itemOut title tags true i).all notInfoTitle = true := by
  cases i with
  | plain t =>
    refine all_append2 ?_ ?_
    · simp
    · simpa [notInfoTitle] using passEvt_notInfoTitle (plainTopOk_pass hi)
  | infoSec body => simp [isInfoSecB] at h2
  | tagsSec entries =>
    refine all_append2 (all_append2 (all_append2 (all_append2 ?_ ?_) ?_) ?_) ?_
    · simp
    · simp [notInfoTitle, isInfoEvt, isTitleEvt]
    · exact all_weaken (cmap_mergeEntry_pass tags entries hi) (fun a => passEvt_notInfoTitle)
    · exact all_weaken (synthTagEntry_pass tags) (fun a => passEvt_notInfoTitle)
    · simp [notInfoTitle, isInfoEvt, isTitleEvt]

lemma itemsOut_notInfoTitle (title : String) (tags : TagDict) (items : List Item)
    (h : items.all Item.ok = true) (h2 : items.all (fun i => !isInfoSecB i) = true) :
    (itemsOut title tags true items).all notInfoTitle = true := by
  induction items with
  | nil => rfl
  | cons i items ih =>
    simp only [List.all_cons, Bool.and_eq_true] at h h2
    simp only [itemsOut, itemIW_true, List.all_append, Bool.and_eq_true]
    exact ⟨itemOut_notInfoTitle title tags i h.1 (by simpa using h2.1), ih h.2 h2.2⟩

/-! ## Claims C1, C2, C3 -/

lemma count_zero_all {p : Item → Bool} {l : List Item} (h : l.countP p = 0) :
    l.all (fun i => !p i) = true := by
  simp only [List.all_eq_true, Bool.not_eq_true']
  intro i hi
  simpa using List.countP_eq_zero.mp h i hi

lemma wfStream_parts {items : List Item} (h : wfStream items = true) :
    items.all Item.ok = true ∧ items.countP isInfoSecB ≤ 1 ∧
      items.countP isTagsSecB ≤ 1 := by
  simp only [wfStream, Bool.and_eq_true, decide_eq_true_eq] at h
  exact ⟨h.1.1, h.1.2, h.2⟩

lemma passEvt_notInfo {t : MatroskaSpec} (h : passEvt t = true) : (!isInfoEvt t) = true := by
  simp only [passEvt, Bool.not_eq_true', Bool.or_eq_false_iff] at h
  simp [h.1.1]

lemma finalBlock_notInfoTitle (tags : TagDict) :
    ([MatroskaSpec.Tags Master.Start] ++ synthTagEntry tags ++
      [MatroskaSpec.Tags Master.End]).all notInfoTitle = true := by
  refine all_append2 (all_append2 ?_ ?_) ?_
  · simp [notInfoTitle, isInfoEvt, isTitleEvt]
  · exact all_weaken (synthTagEntry_pass tags) (fun a => passEvt_notInfoTitle)
  · simp [notInfoTitle, isInfoEvt, isTitleEvt]

/-- Claim C1: on any well-formed source with a Tags section, the output's
Tags section consists of the existing entries with each reserved-named or
pair-less SimpleTag dropped and every other child passed through, followed
by the single synthesized Tag entry (one empty Targets scope, one
TagName/TagString simple tag per non-empty dictionary key, empty-valued
keys omitted); nothing outside that span is a Tags event. -/
theorem spec_c1 (title : String) (tags : TagDict) (pre post : List Item)
    (entries : List (List TagChild))
    (hwf : wfStream (pre ++ .tagsSec entries :: post) = true) :
    ∃ A B,
      insertLoop title tags (flattenItems (pre ++ .tagsSec entries :: post)) =
        some (A ++ [.Tags .Start] ++ cmap (mergeEntry tags) entries ++
          synthTagEntry tags ++ [.Tags .End] ++ B) ∧
      A.all notTags = true ∧ B.all notTags = true := by
  obtain ⟨hall, hci, hct⟩ := wfStream_parts hwf
  have hallparts : pre.all Item.ok = true ∧ (Item.tagsSec entries).ok = true ∧
      post.all Item.ok = true := by
    simp only [List.all_append, List.all_cons, Bool.and_eq_true] at hall
    exact ⟨hall.1, hall.2.1, hall.2.2⟩
  have hctz : pre.countP isTagsSecB = 0 ∧ post.countP isTagsSecB = 0 := by
    simp only [List.countP_append, List.countP_cons, isTagsSecB, if_true] at hct
    omega
  have hany : (pre ++ .tagsSec entries :: post).any isTagsSecB = true := by
    simp [List.any_append, List.any_cons, isTagsSecB]
  have hmain := insertLoop_items title tags (pre ++ .tagsSec entries :: post) hall
  simp only [hany, eq_self_iff_true, if_true, List.append_nil, itemsOut_append] at hmain
  refine ⟨itemsOut title tags false pre ++
      (if !(pre.foldl itemIW false) then [.Info (.Full [.Title title])] else []),
    itemsOut title tags true post, ?_, ?_, ?_⟩
  · rw [hmain]
    simp only [itemsOut, itemOut, itemIW, List.append_assoc]
  · refine all_append2 (itemsOut_notTags title tags pre false hallparts.1
      (count_zero_all hctz.1)) ?_
    split <;> simp [notTags, isTagsEvt]
  · exact itemsOut_notTags title tags post true hallparts.2.2 (count_zero_all hctz.2)

/-- Witness for spec_c1 on a concrete stream: one existing entry with a
non-reserved FOO tag, dictionary carrying only the empty COMMENT. -/
theorem spec_c1_witness :
    wfStream [.tagsSec [[.simple [.TagName "FOO", .TagString "x"]]]] = true ∧
    (∃ A B,
      insertLoop "T" [("COMMENT", "")]
          (flattenItems ([] ++ .tagsSec [[.simple [.TagName "FOO", .TagString "x"]]] :: [])) =
        some (A ++ [.Tags .Start] ++
          cmap (mergeEntry [("COMMENT", "")]) [[.simple [.TagName "FOO", .TagString "x"]]] ++
          synthTagEntry [("COMMENT", "")] ++ [.Tags .End] ++ B) ∧
      A.all notTags = true ∧ B.all notTags = true) :=
  ⟨by decide, spec_c1 "T" [("COMMENT", "")] [] []
    [[.simple [.TagName "FOO", .TagString "x"]]] (by decide)⟩

lemma filter_title_of_filtered (l : List MatroskaSpec) :
    (l.filter (fun t => !isTitleEvt t)).filter isTitleEvt = [] := by
  induction l with
  | nil => rfl
  | cons t l ih =>
    by_cases h : isTitleEvt t = true
    · simp [List.filter_cons, h, ih]
    · simp only [Bool.not_eq_true] at h
      simp [List.filter_cons, h, ih]

/-- Claim C2: on any well-formed source whose Info section precedes the
other sections, the output has exactly one Title — the supplied one — in
its unique Info section: pre-existing Titles in the Info body are dropped,
and no Title or Info event occurs outside the section. -/
theorem spec_c2 (title : String) (tags : TagDict) (pre : List Item)
    (body : List MatroskaSpec) (post : List Item)
    (hwf : wfStream (pre ++ .infoSec body :: post) = true)
    (hpre : pre.all isPlainNonTrigger = true) :
    ∃ A B,
      insertLoop title tags (flattenItems (pre ++ .infoSec body :: post)) =
        some (A ++ [MatroskaSpec.Info Master.Start] ++
          (body.filter (fun t => !isTitleEvt t) ++ [MatroskaSpec.Title title]) ++ [MatroskaSpec.Info Master.End] ++ B) ∧
      (body.filter (fun t => !isTitleEvt t) ++ [MatroskaSpec.Title title]).filter isTitleEvt =
        [MatroskaSpec.Title title] ∧
      A.all notInfoTitle = true ∧ B.all notInfoTitle = true := by
  obtain ⟨hall, hci, hct⟩ := wfStream_parts hwf
  have hallparts : pre.all Item.ok = true ∧ (Item.infoSec body).ok = true ∧
      post.all Item.ok = true := by
    simp only [List.all_append, List.all_cons, Bool.and_eq_true] at hall
    exact ⟨hall.1, hall.2.1, hall.2.2⟩
  have hciz : post.countP isInfoSecB = 0 := by
    simp only [List.countP_append, List.countP_cons, isInfoSecB, if_true] at hci
    omega
  obtain ⟨hpre1, hpre2⟩ := itemsOut_plain_pre title tags pre hpre
  have hmain := insertLoop_items title tags (pre ++ .infoSec body :: post) hall
  rw [itemsOut_append, hpre1, hpre2] at hmain
  refine ⟨flattenItems pre,
    itemsOut title tags true post ++
      (if (pre ++ .infoSec body :: post).any isTagsSecB then []
       else [.Tags .Start] ++ synthTagEntry tags ++ [.Tags .End]), ?_, ?_, ?_, ?_⟩
  · rw [hmain]
    simp only [itemsOut, itemOut, itemIW, List.append_assoc, List.cons_append,
      List.nil_append, List.singleton_append]
  · simp [List.filter_append, filter_title_of_filtered, isTitleEvt]
  · exact all_weaken (flattenItems_plain_pass pre hallparts.1 hpre)
      (fun a => passEvt_notInfoTitle)
  · refine all_append2 (itemsOut_notInfoTitle title tags post hallparts.2.2
      (count_zero_all hciz)) ?_
    split
    · rfl
    · exact finalBlock_notInfoTitle tags

/-- Witness for spec_c2 on a concrete stream: an Info section holding an
old Title and a Duration. -/
theorem spec_c2_witness :
    wfStream [.infoSec [.Title "old", .Duration 7]] = true ∧
    ([] : List Item).all isPlainNonTrigger = true ∧
    (∃ A B,
      insertLoop "T" [("COMMENT", "")]
          (flattenItems ([] ++ .infoSec [.Title "old", .Duration 7] :: [])) =
        some (A ++ [MatroskaSpec.Info Master.Start] ++
          (([MatroskaSpec.Title "old", .Duration 7]).filter (fun t => !isTitleEvt t) ++
            [MatroskaSpec.Title "T"]) ++ [MatroskaSpec.Info Master.End] ++ B) ∧
      (([MatroskaSpec.Title "old", .Duration 7]).filter (fun t => !isTitleEvt t) ++
        [MatroskaSpec.Title "T"]).filter isTitleEvt = [MatroskaSpec.Title "T"] ∧
      A.all notInfoTitle = true ∧ B.all notInfoTitle = true) :=
  ⟨by decide, by decide,
    spec_c2 "T" [("COMMENT", "")] [] [.Title "old", .Duration 7] [] (by decide) (by decide)⟩

/-- Claim C3: with no Info section in the source, the engine synthesizes
exactly one Info block — immediately before the first trigger element
(Tracks/Chapters/Cluster/Cues/Attachments/Tags start), everything before
it passing through unchanged and nothing after it being an Info event —
and when no trigger element occurs at all, the output is the source
passed through plus the appended Tags section, with no Info event
anywhere. -/
theorem spec_c3 :
    (∀ (title : String) (tags : TagDict) (pre : List Item) (i0 : Item) (post : List Item),
      wfStream (pre ++ i0 :: post) = true →
      pre.all isPlainNonTrigger = true →
      (pre ++ i0 :: post).all (fun i => !isInfoSecB i) = true →
      isTriggerItem i0 = true →
      ∃ B, insertLoop title tags (flattenItems (pre ++ i0 :: post)) =
          some (flattenItems pre ++ [MatroskaSpec.Info (Master.Full
            [MatroskaSpec.Title title])] ++ B) ∧
        B.head? = (Item.flat i0).head? ∧
        (flattenItems pre).all (fun t => !isInfoEvt t) = true ∧
        B.all (fun t => !isInfoEvt t) = true) ∧
    (∀ (title : String) (tags : TagDict) (items : List Item),
      wfStream items = true →
      items.all isPlainNonTrigger = true →
      insertLoop title tags (flattenItems items) =
        some (flattenItems items ++ [MatroskaSpec.Tags Master.Start] ++
          synthTagEntry tags ++ [MatroskaSpec.Tags Master.End]) ∧
      (flattenItems items ++ [MatroskaSpec.Tags Master.Start] ++ synthTagEntry tags ++
        [MatroskaSpec.Tags Master.End]).all (fun t => !isInfoEvt t) = true) := by
  constructor
  · intro title tags pre i0 post hwf hpre hnoinfo htrig
    obtain ⟨hall, hci, hct⟩ := wfStream_parts hwf
    have hallparts : pre.all Item.ok = true ∧ i0.ok = true ∧ post.all Item.ok = true := by
      simp only [List.all_append, List.all_cons, Bool.and_eq_true] at hall
      exact ⟨hall.1, hall.2.1, hall.2.2⟩
    have hpostninfo : post.all (fun i => !isInfoSecB i) = true := by
      simp only [List.all_append, List.all_cons, Bool.and_eq_true] at hnoinfo
      exact hnoinfo.2.2
    obtain ⟨hpre1, hpre2⟩ := itemsOut_plain_pre title tags pre hpre
    have hmain := insertLoop_items title tags (pre ++ i0 :: post) hall
    rw [itemsOut_append, hpre1, hpre2] at hmain
    have hpostInfoTitle := itemsOut_notInfoTitle title tags post hallparts.2.2 hpostninfo
    have hBpost : (itemsOut title tags true post).all (fun t => !isInfoEvt t) = true :=
      all_weaken hpostInfoTitle (fun a => notInfoTitle_notInfo)
    have hpreInfo : (flattenItems pre).all (fun t => !isInfoEvt t) = true :=
      all_weaken (flattenItems_plain_pass pre hallparts.1 hpre) (fun a => passEvt_notInfo)
    cases i0 with
    | plain t =>
      have ht : isTriggerStart t = true := htrig
      refine ⟨[t] ++ itemsOut title tags true post ++
        (if (pre ++ .plain t :: post).any isTagsSecB then []
         else [MatroskaSpec.Tags Master.Start] ++ synthTagEntry tags ++
           [MatroskaSpec.Tags Master.End]), ?_, ?_, hpreInfo, ?_⟩
      · rw [hmain]
        simp only [itemsOut, itemOut, itemIW, ht, Bool.not_false, Bool.and_true,
          Bool.true_and, Bool.false_or, Bool.or_true, if_true, List.append_assoc,
          List.cons_append, List.nil_append, List.singleton_append]
      · rfl
      · refine all_append2 (all_append2 ?_ hBpost) ?_
        · have hp : plainTopOk t = true := hallparts.2.1
          simpa using passEvt_notInfo (plainTopOk_pass hp)
        · split
          · rfl
          · refine all_append2 (all_append2 ?_ ?_) ?_
            · simp [isInfoEvt]
            · exact all_weaken (synthTagEntry_pass tags) (fun a => passEvt_notInfo)
            · simp [isInfoEvt]
    | infoSec body => simp [isTriggerItem] at htrig
    | tagsSec entries =>
      have hany : (pre ++ .tagsSec entries :: post).any isTagsSecB = true := by
        simp [List.any_append, List.any_cons, isTagsSecB]
      simp only [hany, eq_self_iff_true, if_true, List.append_nil] at hmain
      refine ⟨[MatroskaSpec.Tags Master.Start] ++ cmap (mergeEntry tags) entries ++
        synthTagEntry tags ++ [MatroskaSpec.Tags Master.End] ++
        itemsOut title tags true post, ?_, ?_, hpreInfo, ?_⟩
      · rw [hmain]
        simp only [itemsOut, itemOut, itemIW, Bool.not_false, if_true,
          List.append_assoc, List.cons_append, List.nil_append, List.singleton_append]
      · simp [Item.flat]
      · refine all_append2 (all_append2 (all_append2 (all_append2 ?_ ?_) ?_) ?_) hBpost
        · simp [isInfoEvt]
        · exact all_weaken (cmap_mergeEntry_pass tags entries hallparts.2.1)
            (fun a => passEvt_notInfo)
        · exact all_weaken (synthTagEntry_pass tags) (fun a => passEvt_notInfo)
        · simp [isInfoEvt]
  · intro title tags items hwf hplain
    obtain ⟨hall, hci, hct⟩ := wfStream_parts hwf
    obtain ⟨h1, h2⟩ := itemsOut_plain_pre title tags items hplain
    have hnot : items.any isTagsSecB = false := by
      simp only [List.any_eq_false]
      intro i hi
      have := List.all_eq_true.mp hplain i hi
      cases i <;> simp_all [isPlainNonTrigger, isTagsSecB]
    have hmain := insertLoop_items title tags items hall
    rw [h1, hnot] at hmain
    constructor
    · rw [hmain]
      simp [List.append_assoc]
    · refine all_append2 (all_append2 (all_append2 ?_ ?_) ?_) ?_
      · exact all_weaken (flattenItems_plain_pass items hall hplain)
          (fun a => passEvt_notInfo)
      · simp [isInfoEvt]
      · exact all_weaken (synthTagEntry_pass tags) (fun a => passEvt_notInfo)
      · simp [isInfoEvt]

/-- Witness for spec_c3 on concrete streams: a Tracks section following a
plain Duration receives the synthesized Info immediately before Tracks
Start even though a Tags section follows (ordering pin), and a
trigger-free stream gets no Info anywhere. -/
theorem spec_c3_witness :
    (wfStream [Item.plain (.Duration 9), .plain (.Tracks .Start), .plain (.Tracks .End),
        .tagsSec []] = true ∧
      [Item.plain (.Duration 9)].all isPlainNonTrigger = true ∧
      ([Item.plain (.Duration 9)] ++ Item.plain (.Tracks .Start) ::
        [Item.plain (.Tracks .End), .tagsSec []]).all (fun i => !isInfoSecB i) = true ∧
      isTriggerItem (Item.plain (.Tracks .Start)) = true ∧
      ∃ B, insertLoop "T" [("COMMENT", "")]
          (flattenItems ([Item.plain (.Duration 9)] ++ Item.plain (.Tracks .Start) ::
            [Item.plain (.Tracks .End), .tagsSec []])) =
          some (flattenItems [Item.plain (.Duration 9)] ++
            [MatroskaSpec.Info (Master.Full [MatroskaSpec.Title "T"])] ++ B) ∧
        B.head? = (Item.flat (Item.plain (.Tracks .Start))).head? ∧
        (flattenItems [Item.plain (.Duration 9)]).all (fun t => !isInfoEvt t) = true ∧
        B.all (fun t => !isInfoEvt t) = true) ∧
    (wfStream [Item.plain (.Duration 9)] = true ∧
      [Item.plain (.Duration 9)].all isPlainNonTrigger = true ∧
      (insertLoop "T" [("COMMENT", "")] (flattenItems [Item.plain (.Duration 9)]) =
        some (flattenItems [Item.plain (.Duration 9)] ++ [MatroskaSpec.Tags Master.Start] ++
          synthTagEntry [("COMMENT", "")] ++ [MatroskaSpec.Tags Master.End]) ∧
      (flattenItems [Item.plain (.Duration 9)] ++ [MatroskaSpec.Tags Master.Start] ++
        synthTagEntry [("COMMENT", "")] ++ [MatroskaSpec.Tags Master.End]).all
        (fun t => !isInfoEvt t) = true)) :=
  ⟨⟨by decide, by decide, by decide, by decide,
    spec_c3.1 "T" [("COMMENT", "")] [Item.plain (.Duration 9)] (Item.plain (.Tracks .Start))
      [Item.plain (.Tracks .End), .tagsSec []] (by decide) (by decide) (by decide) (by decide)⟩,
   ⟨by decide, by decide,
    spec_c3.2 "T" [("COMMENT", "")] [Item.plain (.Duration 9)] (by decide) (by decide)⟩⟩

/-! ## Claim C10 : only actually-inserted keys are reserved -/

/-- Claim C10: when a Video has no imdb_id the IMDB key is absent from
the engine's dictionary, and for a Movie the SEASON and EPISODE keys are
absent, so the corresponding pre-existing SimpleTags pass through the
engine's in-Tags merge step unchanged. -/
theorem spec_c10 :
    (∀ (ent : Entity) (m : Metadata), ent.imdb_id = none →
      containsKey (buildTags (.Movie ent m)) "IMDB" = false) ∧
    (∀ (ep : Episode) (m : Metadata), ep.imdb_id = none →
      containsKey (buildTags (.Episode ep m)) "IMDB" = false) ∧
    (∀ (ent : Entity) (m : Metadata) (st : EngineState) (data : List MatroskaSpec)
        (v : String),
      ent.imdb_id = none →
      st.in_info = false → st.in_tags = true → st.in_tag = true →
      findTagName data = some (.TagName "IMDB") →
      findTagString data = some (.TagString v) →
      step (titleOf (.Movie ent m)) (buildTags (.Movie ent m)) st
          (.SimpleTag (.Full data)) = some (st, [.SimpleTag (.Full data)])) ∧
    (∀ (ep : Episode) (m : Metadata) (st : EngineState) (data : List MatroskaSpec)
        (v : String),
      ep.imdb_id = none →
      st.in_info = false → st.in_tags = true → st.in_tag = true →
      findTagName data = some (.TagName "IMDB") →
      findTagString data = some (.TagString v) →
      step (titleOf (.Episode ep m)) (buildTags (.Episode ep m)) st
          (.SimpleTag (.Full data)) = some (st, [.SimpleTag (.Full data)])) ∧
    (∀ (ent : Entity) (m : Metadata),
      containsKey (buildTags (.Movie ent m)) "SEASON" = false ∧
      containsKey (buildTags (.Movie ent m)) "EPISODE" = false) ∧
    (∀ (ent : Entity) (m : Metadata) (st : EngineState) (data : List MatroskaSpec)
        (k v : String),
      st.in_info = false → st.in_tags = true → st.in_tag = true →
      (k = "SEASON" ∨ k = "EPISODE") →
      findTagName data = some (.TagName k) →
      findTagString data = some (.TagString v) →
      step (titleOf (.Movie ent m)) (buildTags (.Movie ent m)) st
          (.SimpleTag (.Full data)) = some (st, [.SimpleTag (.Full data)])) := by
  have hM : ∀ (ent : Entity) (m : Metadata), ent.imdb_id = none →
      containsKey (buildTags (.Movie ent m)) "IMDB" = false := by
    intro ent m h
    simp [buildTags, h, containsKey]
  have hE : ∀ (ep : Episode) (m : Metadata), ep.imdb_id = none →
      containsKey (buildTags (.Episode ep m)) "IMDB" = false := by
    intro ep m h
    simp [buildTags, h, containsKey]
  have hS : ∀ (ent : Entity) (m : Metadata),
      containsKey (buildTags (.Movie ent m)) "SEASON" = false ∧
      containsKey (buildTags (.Movie ent m)) "EPISODE" = false := by
    intro ent m
    cases him : ent.imdb_id <;> simp [buildTags, him, containsKey]
  refine ⟨hM, hE, ?_, ?_, hS, ?_⟩
  · intro ent m st data v h h1 h2 h3 hn hs
    simp [step, isTriggerStart, stepTail, h1, h2, h3, hn, hs, hM ent m h]
  · intro ep m st data v h h1 h2 h3 hn hs
    simp [step, isTriggerStart, stepTail, h1, h2, h3, hn, hs, hE ep m h]
  · intro ent m st data k v h1 h2 h3 hk hn hs
    rcases hk with hk | hk <;> subst hk <;>
      simp [step, isTriggerStart, stepTail, h1, h2, h3, hn, hs, (hS ent m).1, (hS ent m).2]

/-- Witness for spec_c10 at a concrete Movie with no imdb_id and a
concrete pre-existing IMDB SimpleTag. -/
theorem spec_c10_witness :
    (Entity.mk "T" 2020 none).imdb_id = none ∧
    step (titleOf (.Movie ⟨"T", 2020, none⟩ ⟨(1920, 1080), none⟩))
        (buildTags (.Movie ⟨"T", 2020, none⟩ ⟨(1920, 1080), none⟩))
        ⟨true, false, false, true, true⟩
        (.SimpleTag (.Full [.TagName "IMDB", .TagString "tt123"])) =
      some (⟨true, false, false, true, true⟩,
        [.SimpleTag (.Full [.TagName "IMDB", .TagString "tt123"])]) :=
  ⟨rfl, spec_c10.2.2.1 ⟨"T", 2020, none⟩ ⟨(1920, 1080), none⟩
    ⟨true, false, false, true, true⟩ [.TagName "IMDB", .TagString "tt123"] "tt123"
    rfl rfl rfl rfl (by rfl) (by rfl)⟩

/-! ## Re-reading the engine's output (claim C4)

Idempotence compares the engine's output bytes after a second pass.  The
second pass consumes the first output through the same configured reader,
which (a) delivers every master element written as Full back as
Start/End events — the byte encodings coincide — except SimpleTag, and
(b) buffers each written SimpleTag Start/.../End region back into one
Full subtree.  `readback` models this re-reading for the streams the
engine emits: Full masters with scalar children, and SimpleTag regions
containing only scalars. -/

def isSimpleStart : MatroskaSpec → Bool
  | .SimpleTag .Start => true
  | _ => false

def isSimpleEnd : MatroskaSpec → Bool
  | .SimpleTag .End => true
  | _ => false

/-- One written tag as the reader re-delivers it (Full masters other than
SimpleTag come back as Start/children/End). -/
def readbackTag : MatroskaSpec → List MatroskaSpec
  | .Info (.Full ch) => .Info .Start :: ch ++ [.Info .End]
  | .Tags (.Full ch) => .Tags .Start :: ch ++ [.Tags .End]
  | .Tag (.Full ch) => .Tag .Start :: ch ++ [.Tag .End]
  | .Targets (.Full ch) => .Targets .Start :: ch ++ [.Targets .End]
  | .Tracks (.Full ch) => .Tracks .Start :: ch ++ [.Tracks .End]
  | .Chapters (.Full ch) => .Chapters .Start :: ch ++ [.Chapters .End]
  | .Cluster (.Full ch) => .Cluster .Start :: ch ++ [.Cluster .End]
  | .Cues (.Full ch) => .Cues .Start :: ch ++ [.Cues .End]
  | .Attachments (.Full ch) => .Attachments .Start :: ch ++ [.Attachments .End]
  | t => [t]

/-- The re-reading scan; `some acc` is a SimpleTag region being buffered. -/
def readbackAux : Option (List MatroskaSpec) → List MatroskaSpec → List MatroskaSpec
  | _, [] => []
  | none, t :: rest =>
    if isSimpleStart t then readbackAux (some []) rest
    else readbackTag t ++ readbackAux none rest
  | some acc, t :: rest =>
    if isSimpleEnd t then .SimpleTag (.Full acc) :: readbackAux none rest
    else readbackAux (some (acc ++ [t])) rest

def readback (l : List MatroskaSpec) : List MatroskaSpec := readbackAux none l

/-- The scan ends outside any SimpleTag region. -/
def rbEndsNone : Option (List MatroskaSpec) → List MatroskaSpec → Bool
  | st, [] => st.isNone
  | none, t :: rest =>
    if isSimpleStart t then rbEndsNone (some []) rest
    else rbEndsNone none rest
  | some acc, t :: rest =>
    if isSimpleEnd t then rbEndsNone none rest
    else rbEndsNone (some (acc ++ [t])) rest

lemma rb_append (a : List MatroskaSpec) :
    ∀ (st : Option (List MatroskaSpec)) (b : List MatroskaSpec),
      rbEndsNone st a = true →
      readbackAux st (a ++ b) = readbackAux st a ++ readbackAux none b := by
  induction a with
  | nil =>
    intro st b h
    cases st with
    | none => simp [readbackAux]
    | some acc => simp [rbEndsNone] at h
  | cons t a ih =>
    intro st b h
    cases st with
    | none =>
      by_cases hs : isSimpleStart t = true
      · simp only [List.cons_append, readbackAux, hs, if_true]
        exact ih _ b (by simpa [rbEndsNone, hs] using h)
      · simp only [Bool.not_eq_true] at hs
        simp only [List.cons_append, readbackAux, hs, Bool.false_eq_true, if_false,
          List.append_assoc, List.append_eq]
        rw [ih _ b (by simpa [rbEndsNone, hs] using h)]
    | some acc =>
      by_cases hs : isSimpleEnd t = true
      · simp only [List.cons_append, readbackAux, hs, if_true, List.append_eq]
        rw [ih _ b (by simpa [rbEndsNone, hs] using h)]
      · simp only [Bool.not_eq_true] at hs
        simp only [List.cons_append, readbackAux, hs, Bool.false_eq_true, if_false]
        exact ih _ b (by simpa [rbEndsNone, hs] using h)

/-- Events the re-reading returns verbatim: everything except Full
masters (other than SimpleTag) and SimpleTag Start/End framing. -/
def rbPlain : MatroskaSpec → Bool
  | .Info (.Full _) => false
  | .Tags (.Full _) => false
  | .Tag (.Full _) => false
  | .Targets (.Full _) => false
  | .Tracks (.Full _) => false
  | .Chapters (.Full _) => false
  | .Cluster (.Full _) => false
  | .Cues (.Full _) => false
  | .Attachments (.Full _) => false
  | .SimpleTag .Start => false
  | .SimpleTag .End => false
  | _ => true

lemma readbackTag_plain {t : MatroskaSpec} (h : rbPlain t = true) : readbackTag t = [t] := by
  cases t <;>
    (rename_i m
     cases m <;> simp_all [rbPlain, readbackTag])

lemma isSimpleStart_plain {t : MatroskaSpec} (h : rbPlain t = true) :
    isSimpleStart t = false := by
  cases t <;>
    (rename_i m
     cases m <;> simp_all [rbPlain, isSimpleStart])

lemma rb_cons_plain {t : MatroskaSpec} (h : rbPlain t = true) (l : List MatroskaSpec) :
    readbackAux none (t :: l) = t :: readbackAux none l := by
  simp [readbackAux, isSimpleStart_plain h, readbackTag_plain h]

lemma rbEndsNone_cons_plain {t : MatroskaSpec} (h : rbPlain t = true)
    (l : List MatroskaSpec) : rbEndsNone none (t :: l) = rbEndsNone none l := by
  simp [rbEndsNone, isSimpleStart_plain h]

lemma rb_id_append {a : List MatroskaSpec} (h : a.all rbPlain = true)
    (l : List MatroskaSpec) : readbackAux none (a ++ l) = a ++ readbackAux none l := by
  induction a with
  | nil => rfl
  | cons t a ih =>
    simp only [List.all_cons, Bool.and_eq_true] at h
    rw [List.cons_append, rb_cons_plain h.1, ih h.2]
    rfl

lemma rbEndsNone_of_all {a : List MatroskaSpec} (h : a.all rbPlain = true) :
    rbEndsNone none a = true := by
  induction a with
  | nil => rfl
  | cons t a ih =>
    simp only [List.all_cons, Bool.and_eq_true] at h
    rw [rbEndsNone_cons_plain h.1]
    exact ih h.2

/-! ## The engine's output, re-read, as a structured stream -/

/-- Structured form of the engine's in-Tags merge of one entry child. -/
def mergeChildS (tags : TagDict) : TagChild → List TagChild
  | .simple data =>
    match findTagName data, findTagString data with
    | some (.TagName name), some (.TagString _) =>
      if containsKey tags name then [] else [.simple data]
    | _, _ => []
  | .plain t => [.plain t]

/-- Structured form of the synthesized simple tags, as re-read. -/
def synthSimpleS (tags : TagDict) : List TagChild :=
  cmap (fun p => if p.2.length > 0 then
    [TagChild.simple [.TagName p.1, .TagString p.2]] else []) tags

/-- Structured form of the synthesized Tag entry, as re-read: the empty
Targets scope comes back as a Start/End pair, each written simple-tag
quadruple as one SimpleTag subtree. -/
def synthEntryS (tags : TagDict) : List TagChild :=
  [.plain (.Targets .Start), .plain (.Targets .End)] ++ synthSimpleS tags

/-- Structured form of the engine's output for one item. -/
def outItem1 (title : String) (tags : TagDict) (iw : Bool) : Item → List Item
  | .plain t =>
    (if isTriggerStart t && !iw then [.infoSec [.Title title]] else []) ++ [.plain t]
  | .infoSec body =>
    [.infoSec (body.filter (fun t => !isTitleEvt t) ++ [.Title title])]
  | .tagsSec entries =>
    (if !iw then [.infoSec [.Title title]] else []) ++
      [.tagsSec (entries.map (fun e => cmap (mergeChildS tags) e) ++ [synthEntryS tags])]

/-- Structured form of the engine's output for a list of items. -/
def outItems (title : String) (tags : TagDict) (iw : Bool) : List Item → List Item
  | [] => []
  | i :: rest => outItem1 title tags iw i ++ outItems title tags (itemIW iw i) rest

/-- Structured form of the engine's whole output (with the appended Tags
section when the source had none). -/
def outStruct (title : String) (tags : TagDict) (items : List Item) : List Item :=
  outItems title tags false items ++
    (if items.any isTagsSecB then [] else [.tagsSec [synthEntryS tags]])

/-! ## Flattening the structured output matches the re-read raw output -/

lemma cmap_map (f : β → List γ) (g : α → β) (l : List α) :
    cmap f (l.map g) = cmap (fun a => f (g a)) l := by
  induction l with
  | nil => rfl
  | cons a l ih => simp [cmap, ih]

lemma flat_mergeChildS (tags : TagDict) (e : List TagChild) :
    cmap TagChild.flat (cmap (mergeChildS tags) e) = cmap (mergeChild tags) e := by
  induction e with
  | nil => rfl
  | cons c e ih =>
    simp only [cmap, cmap_append]
    rw [ih]
    congr 1
    cases c with
    | plain t => rfl
    | simple data =>
      simp only [mergeChildS, mergeChild]
      cases hn : findTagName data with
      | none => rfl
      | some t1 =>
        cases hs : findTagString data with
        | none => cases t1 <;> rfl
        | some t2 =>
          cases t1 <;> cases t2 <;> first
            | rfl
            | (split <;> first
                | rfl
                | (split <;> simp [cmap, TagChild.flat]))

lemma rb_quad (k v : String) (l : List MatroskaSpec) :
    readbackAux none (.SimpleTag .Start :: .TagName k :: .TagString v ::
        .SimpleTag .End :: l) =
      .SimpleTag (.Full [.TagName k, .TagString v]) :: readbackAux none l := rfl

lemma rb_synthSimple (d : TagDict) (l : List MatroskaSpec) :
    readbackAux none (synthSimpleTags d ++ l) =
      cmap TagChild.flat (synthSimpleS d) ++ readbackAux none l := by
  induction d with
  | nil => rfl
  | cons p d ih =>
    by_cases hv : p.2.length > 0
    · simp only [synthSimpleTags, synthSimpleS, cmap, hv, if_true, List.append_assoc,
        List.cons_append, List.nil_append]
      rw [rb_quad]
      simp only [synthSimpleS] at ih
      rw [ih]
      rfl
    · simp only [synthSimpleTags, synthSimpleS, cmap, hv, if_false, List.nil_append]
      exact ih

lemma rb_cons_fullInfo (ch l : List MatroskaSpec) :
    readbackAux none (.Info (.Full ch) :: l) =
      .Info .Start :: ch ++ [.Info .End] ++ readbackAux none l := by
  simp [readbackAux, isSimpleStart, readbackTag]

lemma rb_cons_fullTargets (l : List MatroskaSpec) :
    readbackAux none (.Targets (.Full []) :: l) =
      .Targets .Start :: .Targets .End :: readbackAux none l := rfl

lemma plainTopOk_rbPlain {t : MatroskaSpec} (h : plainTopOk t = true) : rbPlain t = true := by
  cases t <;>
    (rename_i m
     cases m <;> simp_all [plainTopOk, rbPlain])

lemma infoChildOk_rbPlain {t : MatroskaSpec} (h : infoChildOk t = true) :
    rbPlain t = true := by
  cases t <;>
    (rename_i m
     cases m <;> simp_all [infoChildOk, rbPlain])

lemma tagChildPlainOk_rbPlain {t : MatroskaSpec} (h : tagChildPlainOk t = true) :
    rbPlain t = true := by
  cases t <;>
    (rename_i m
     cases m <;> simp_all [tagChildPlainOk, rbPlain])

lemma mergeChild_rbPlain (tags : TagDict) (c : TagChild) (hc : c.ok = true) :
    (mergeChild tags c).all rbPlain = true := by
  cases c with
  | plain t =>
    simp only [mergeChild, List.all_cons, List.all_nil, Bool.and_true]
    exact tagChildPlainOk_rbPlain hc
  | simple data =>
    simp only [mergeChild]
    cases hn : findTagName data with
    | none => rfl
    | some t1 =>
      cases hs : findTagString data with
      | none => cases t1 <;> rfl
      | some t2 =>
        cases t1 <;> cases t2 <;> first
          | rfl
          | (split <;> simp [rbPlain])

lemma mergeEntry_rbPlain (tags : TagDict) (e : List TagChild)
    (he : e.all TagChild.ok = true) : (mergeEntry tags e).all rbPlain = true := by
  refine all_append2 (all_append2 (by simp [rbPlain]) ?_) (by simp [rbPlain])
  induction e with
  | nil => rfl
  | cons c e ih =>
    simp only [List.all_cons, Bool.and_eq_true] at he
    simp only [cmap]
    exact all_append2 (mergeChild_rbPlain tags c he.1) (ih he.2)

lemma cmap_mergeEntry_rbPlain (tags : TagDict) (entries : List (List TagChild))
    (h : entries.all (fun e => e.all TagChild.ok) = true) :
    (cmap (mergeEntry tags) entries).all rbPlain = true := by
  induction entries with
  | nil => rfl
  | cons e entries ih =>
    simp only [List.all_cons, Bool.and_eq_true] at h
    simp only [cmap]
    exact all_append2 (mergeEntry_rbPlain tags e h.1) (ih h.2)

lemma cmap_congr {l : List α} {f g : α → List β} (h : ∀ a ∈ l, f a = g a) :
    cmap f l = cmap g l := by
  induction l with
  | nil => rfl
  | cons a l ih =>
    simp only [cmap, h a (List.mem_cons_self a l)]
    rw [ih (fun b hb => h b (List.mem_cons_of_mem a hb))]

lemma cmap_entryFlat_map (tags : TagDict) (entries : List (List TagChild)) :
    cmap entryFlat (entries.map (fun e => cmap (mergeChildS tags) e)) =
      cmap (mergeEntry tags) entries := by
  rw [cmap_map]
  refine cmap_congr (fun e _ => ?_)
  simp only [entryFlat, mergeEntry, flat_mergeChildS]

lemma infoOut_rbPlain (title : String) (body : List MatroskaSpec)
    (h : body.all infoChildOk = true) :
    ([MatroskaSpec.Info Master.Start] ++ body.filter (fun t => !isTitleEvt t) ++
      [MatroskaSpec.Title title, .Info .End]).all rbPlain = true := by
  refine all_append2 (all_append2 (by simp [rbPlain]) ?_) (by simp [rbPlain])
  exact all_weaken (all_filter_of_all h) (fun a ha => infoChildOk_rbPlain ha)

lemma rb_itemOut (title : String) (tags : TagDict) (iw : Bool) (i : Item)
    (hi : i.ok = true) (l : List MatroskaSpec) :
    readbackAux none (itemOut title tags iw i ++ l) =
      flattenItems (outItem1 title tags iw i) ++ readbackAux none l := by
  cases i with
  | plain t =>
    have hp : rbPlain t = true := plainTopOk_rbPlain hi
    by_cases hc : (isTriggerStart t && !iw) = true
    · have heq : itemOut title tags iw (.plain t) ++ l =
          .Info (.Full [.Title title]) :: t :: l := by
        simp [itemOut, hc]
      rw [heq, rb_cons_fullInfo, rb_cons_plain hp]
      simp [flattenItems, cmap, Item.flat, outItem1, hc]
    · have heq : itemOut title tags iw (.plain t) ++ l = t :: l := by
        simp [itemOut, hc]
      rw [heq, rb_cons_plain hp]
      simp only [Bool.not_eq_true] at hc
      simp [flattenItems, cmap, Item.flat, outItem1, hc]
  | infoSec body =>
    have heq : itemOut title tags iw (.infoSec body) ++ l =
        ([MatroskaSpec.Info Master.Start] ++ body.filter (fun t => !isTitleEvt t) ++
          [MatroskaSpec.Title title, .Info .End]) ++ l := by
      simp [itemOut]
    rw [heq, rb_id_append (infoOut_rbPlain title body hi)]
    simp [flattenItems, cmap, Item.flat, outItem1, List.append_assoc]
  | tagsSec entries =>
    have hM : (cmap (mergeEntry tags) entries).all rbPlain = true :=
      cmap_mergeEntry_rbPlain tags entries hi
    have hrest : ∀ l2, readbackAux none (MatroskaSpec.Tags Master.Start ::
        (cmap (mergeEntry tags) entries ++ (MatroskaSpec.Tag Master.Start ::
          MatroskaSpec.Targets (Master.Full []) :: (synthSimpleTags tags ++
          (MatroskaSpec.Tag Master.End :: MatroskaSpec.Tags Master.End :: l2))))) =
        [MatroskaSpec.Tags Master.Start] ++ cmap (mergeEntry tags) entries ++
          ([MatroskaSpec.Tag Master.Start, .Targets .Start, .Targets .End] ++
            cmap TagChild.flat (synthSimpleS tags) ++
            [MatroskaSpec.Tag Master.End]) ++ [MatroskaSpec.Tags Master.End] ++
          readbackAux none l2 := by
      intro l2
      rw [rb_cons_plain (by rfl), rb_id_append hM, rb_cons_plain (by rfl),
        rb_cons_fullTargets, rb_synthSimple, rb_cons_plain (by rfl),
        rb_cons_plain (by rfl)]
      simp [List.append_assoc]
    by_cases hc : (!iw) = true
    · have heq : itemOut title tags iw (.tagsSec entries) ++ l =
          .Info (.Full [.Title title]) :: (MatroskaSpec.Tags Master.Start ::
            (cmap (mergeEntry tags) entries ++ (MatroskaSpec.Tag Master.Start ::
              MatroskaSpec.Targets (Master.Full []) :: (synthSimpleTags tags ++
              (MatroskaSpec.Tag Master.End :: MatroskaSpec.Tags Master.End :: l))))) := by
        simp [itemOut, hc, synthTagEntry, List.append_assoc]
      rw [heq, rb_cons_fullInfo, hrest l]
      simp [flattenItems, cmap, Item.flat, outItem1, hc, cmap_append,
        cmap_entryFlat_map, entryFlat, synthEntryS, TagChild.flat, List.append_assoc]
    · have heq : itemOut title tags iw (.tagsSec entries) ++ l =
          MatroskaSpec.Tags Master.Start :: (cmap (mergeEntry tags) entries ++
            (MatroskaSpec.Tag Master.Start :: MatroskaSpec.Targets (Master.Full []) ::
              (synthSimpleTags tags ++ (MatroskaSpec.Tag Master.End ::
                MatroskaSpec.Tags Master.End :: l)))) := by
        simp [itemOut, hc, synthTagEntry, List.append_assoc]
      rw [heq, hrest l]
      simp only [Bool.not_eq_true'] at hc
      simp [flattenItems, cmap, Item.flat, outItem1, hc, cmap_append,
        cmap_entryFlat_map, entryFlat, synthEntryS, TagChild.flat, List.append_assoc]

lemma rb_itemsOut (title : String) (tags : TagDict) (items : List Item) :
    ∀ (iw : Bool), items.all Item.ok = true →
      ∀ l, readbackAux none (itemsOut title tags iw items ++ l) =
        flattenItems (outItems title tags iw items) ++ readbackAux none l := by
  induction items with
  | nil => intro iw _ l; rfl
  | cons i items ih =>
    intro iw h l
    simp only [List.all_cons, Bool.and_eq_true] at h
    simp only [itemsOut, List.append_assoc]
    rw [rb_itemOut title tags iw i h.1, ih (itemIW iw i) h.2 l]
    simp [outItems, flattenItems, cmap_append, List.append_assoc]

lemma rb_finalBlock (tags : TagDict) (l : List MatroskaSpec) :
    readbackAux none (([MatroskaSpec.Tags Master.Start] ++ synthTagEntry tags ++
        [MatroskaSpec.Tags Master.End]) ++ l) =
      flattenItems [Item.tagsSec [synthEntryS tags]] ++ readbackAux none l := by
  have heq : ([MatroskaSpec.Tags Master.Start] ++ synthTagEntry tags ++
      [MatroskaSpec.Tags Master.End]) ++ l =
      MatroskaSpec.Tags Master.Start :: MatroskaSpec.Tag Master.Start ::
        MatroskaSpec.Targets (Master.Full []) :: (synthSimpleTags tags ++
          (MatroskaSpec.Tag Master.End :: MatroskaSpec.Tags Master.End :: l)) := by
    simp [synthTagEntry, List.append_assoc]
  rw [heq, rb_cons_plain (by rfl), rb_cons_plain (by rfl), rb_cons_fullTargets,
    rb_synthSimple, rb_cons_plain (by rfl), rb_cons_plain (by rfl)]
  simp [flattenItems, cmap, Item.flat, entryFlat, synthEntryS, cmap_append,
    TagChild.flat, List.append_assoc]

/-- The engine's output, re-read through the configured reader, is the
flattening of the structured output `outStruct`. -/
lemma rb_insertLoop (title : String) (tags : TagDict) (items : List Item)
    (h : items.all Item.ok = true) (out : List MatroskaSpec)
    (hout : insertLoop title tags (flattenItems items) = some out) :
    readback out = flattenItems (outStruct title tags items) := by
  rw [insertLoop_items title tags items h] at hout
  have hout2 := Option.some.inj hout
  subst hout2
  cases hA : items.any isTagsSecB with
  | true =>
    simp only [readback, outStruct, hA, if_true, List.append_nil]
    have hthis := rb_itemsOut title tags items false h []
    have hnil : readbackAux none ([] : List MatroskaSpec) = [] := rfl
    rw [hnil, List.append_nil, List.append_nil] at hthis
    exact hthis
  | false =>
    simp only [readback, outStruct, hA, Bool.false_eq_true, if_false]
    rw [rb_itemsOut title tags items false h]
    have hfin := rb_finalBlock tags []
    have hnil : readbackAux none ([] : List MatroskaSpec) = [] := rfl
    rw [hnil, List.append_nil, List.append_nil] at hfin
    rw [hfin]
    simp [flattenItems, cmap_append]

/-! ## Well-formedness of the structured output, and the second run -/

lemma cmap_mergeChildS_ok (tags : TagDict) (e : List TagChild)
    (he : e.all TagChild.ok = true) :
    (cmap (mergeChildS tags) e).all TagChild.ok = true := by
  induction e with
  | nil => rfl
  | cons c e ih =>
    simp only [List.all_cons, Bool.and_eq_true] at he
    simp only [cmap]
    refine all_append2 ?_ (ih he.2)
    cases c with
    | plain t => simpa [mergeChildS] using he.1
    | simple data =>
      simp only [mergeChildS]
      cases hn : findTagName data with
      | none => rfl
      | some t1 =>
        cases hs : findTagString data with
        | none => cases t1 <;> rfl
        | some t2 =>
          cases t1 <;> cases t2 <;> first
            | rfl
            | (split <;> first
                | rfl
                | (split <;> first
                    | rfl
                    | simpa using he.1))

lemma synthEntryS_ok (tags : TagDict) : (synthEntryS tags).all TagChild.ok = true := by
  simp only [synthEntryS]
  refine all_append2 (by simp [TagChild.ok, tagChildPlainOk]) ?_
  induction tags with
  | nil => rfl
  | cons p tags ih =>
    simp only [synthSimpleS, cmap]
    refine all_append2 ?_ ih
    split
    · simp [TagChild.ok, simpleDataOk, findTagName, findTagString, List.find?,
        isTagNameTag, isTagStringTag]
    · rfl

lemma outItem1_ok (title : String) (tags : TagDict) (iw : Bool) (i : Item)
    (hi : i.ok = true) : (outItem1 title tags iw i).all Item.ok = true := by
  cases i with
  | plain t =>
    refine all_append2 ?_ (by simpa [Item.ok] using hi)
    split <;> simp [Item.ok, infoChildOk]
  | infoSec body =>
    simp only [outItem1, List.all_cons, List.all_nil, Bool.and_true, Item.ok]
    refine all_append2 (all_filter_of_all hi) (by simp [infoChildOk])
  | tagsSec entries =>
    refine all_append2 ?_ ?_
    · split <;> simp [Item.ok, infoChildOk]
    · have hi2 : entries.all (fun e => e.all TagChild.ok) = true := hi
      simp only [List.all_cons, List.all_nil, Bool.and_true, Item.ok]
      refine all_append2 ?_ (by simp [synthEntryS_ok tags])
      simp only [List.all_eq_true] at hi2 ⊢
      intro e he
      obtain ⟨e0, he0, rfl⟩ := List.mem_map.mp he
      exact List.all_eq_true.mp
        (cmap_mergeChildS_ok tags e0 (List.all_eq_true.mpr (hi2 e0 he0)))

lemma outItems_ok (title : String) (tags : TagDict) (items : List Item) :
    ∀ iw, items.all Item.ok = true →
      (outItems title tags iw items).all Item.ok = true := by
  induction items with
  | nil => intro iw _; rfl
  | cons i items ih =>
    intro iw h
    simp only [List.all_cons, Bool.and_eq_true] at h
    exact all_append2 (outItem1_ok title tags iw i h.1) (ih (itemIW iw i) h.2)

lemma outStruct_ok (title : String) (tags : TagDict) (items : List Item)
    (h : items.all Item.ok = true) :
    (outStruct title tags items).all Item.ok = true := by
  refine all_append2 (outItems_ok title tags items false h) ?_
  split
  · rfl
  · simp [Item.ok, synthEntryS_ok tags]

lemma outItems_any_tagsSec (title : String) (tags : TagDict) (items : List Item) :
    ∀ iw, (outItems title tags iw items).any isTagsSecB = items.any isTagsSecB := by
  induction items with
  | nil => intro iw; rfl
  | cons i items ih =>
    intro iw
    simp only [outItems, List.any_append, List.any_cons, ih (itemIW iw i)]
    congr 1
    cases i with
    | plain t =>
      cases hcc : (isTriggerStart t && !iw) <;>
        simp [outItem1, hcc, isTagsSecB, List.any_append]
    | infoSec body => simp [outItem1, isTagsSecB]
    | tagsSec entries =>
      cases hcc : (!iw) <;> simp [outItem1, hcc, isTagsSecB, List.any_append]

lemma outStruct_any_tagsSec (title : String) (tags : TagDict) (items : List Item) :
    (outStruct title tags items).any isTagsSecB = true := by
  simp only [outStruct, List.any_append, outItems_any_tagsSec]
  cases hA : items.any isTagsSecB <;> simp [isTagsSecB]

/-! ## The second run over the re-read output -/

/-- Source contains an Info section or at least one trigger element (the
minimal trigger-free streams are the ones C3 already excludes from Info
synthesis). -/
def hasInfoOrTrigger (items : List Item) : Bool :=
  items.any (fun i => !isPlainNonTrigger i)

/-- The emptied husk the second run leaves of the first run's synthesized
Tag entry: its Targets scope without any SimpleTag. -/
def huskEntry : List TagChild :=
  [.plain (.Targets .Start), .plain (.Targets .End)]

/-- Insert the husk entry just before the final (synthesized) entry. -/
def insertHuskEntries (es : List (List TagChild)) : List (List TagChild) :=
  es.dropLast ++ huskEntry :: es.drop (es.length - 1)

def insertHuskItem : Item → Item
  | .tagsSec es => .tagsSec (insertHuskEntries es)
  | i => i

lemma insertHuskEntries_concat (es : List (List TagChild)) (x : List TagChild) :
    insertHuskEntries (es ++ [x]) = es ++ [huskEntry, x] := by
  simp only [insertHuskEntries, List.dropLast_concat, List.length_append,
    List.length_cons, List.length_nil]
  rw [show es.length + (0 + 1) - 1 = es.length by omega, List.drop_left]

lemma itemIW_or (iw : Bool) (i : Item) : itemIW iw i = (iw || !isPlainNonTrigger i) := by
  cases i <;> simp [itemIW, isPlainNonTrigger]

lemma foldl_itemIW_eq (items : List Item) :
    ∀ iw, items.foldl itemIW iw = (iw || hasInfoOrTrigger items) := by
  induction items with
  | nil => intro iw; simp [hasInfoOrTrigger]
  | cons i items ih =>
    intro iw
    simp only [List.foldl_cons, ih, itemIW_or, hasInfoOrTrigger, List.any_cons]
    simp [Bool.or_assoc]

lemma outItems_append (title : String) (tags : TagDict) (a b : List Item) (iw : Bool) :
    outItems title tags iw (a ++ b) =
      outItems title tags iw a ++ outItems title tags (a.foldl itemIW iw) b := by
  induction a generalizing iw with
  | nil => simp [outItems]
  | cons i a ih => simp [outItems, List.foldl_cons, ih, List.append_assoc]

lemma foldl_outItem1 (title : String) (tags : TagDict) (iw : Bool) (i : Item) :
    (outItem1 title tags iw i).foldl itemIW iw = itemIW iw i := by
  cases i with
  | plain t =>
    cases hc : (isTriggerStart t && !iw) <;>
      cases iw <;> simp_all [outItem1, itemIW]
  | infoSec body => simp [outItem1, itemIW]
  | tagsSec entries =>
    cases iw <;> simp [outItem1, itemIW]

lemma foldl_outItems (title : String) (tags : TagDict) (items : List Item) :
    ∀ iw, (outItems title tags iw items).foldl itemIW iw = items.foldl itemIW iw := by
  induction items with
  | nil => intro iw; rfl
  | cons i items ih =>
    intro iw
    simp only [outItems, List.foldl_append, List.foldl_cons, foldl_outItem1,
      ih (itemIW iw i)]

lemma containsKey_of_mem {tags : TagDict} {p : String × String} (hp : p ∈ tags) :
    containsKey tags p.1 = true := by
  simp only [containsKey, List.any_eq_true]
  exact ⟨p, hp, by simp⟩

lemma mergeChildS_idem (tags : TagDict) (e : List TagChild) :
    cmap (mergeChildS tags) (cmap (mergeChildS tags) e) = cmap (mergeChildS tags) e := by
  induction e with
  | nil => rfl
  | cons c e ih =>
    simp only [cmap, cmap_append]
    rw [ih]
    congr 1
    cases c with
    | plain t => rfl
    | simple data =>
      cases hn : findTagName data with
      | none => simp [mergeChildS, hn, cmap]
      | some t1 =>
        cases hs : findTagString data with
        | none => cases t1 <;> simp [mergeChildS, hn, hs, cmap]
        | some t2 =>
          cases t1 <;> cases t2 <;> simp only [mergeChildS, hn, hs, cmap] <;> first
            | rfl
            | (split <;> (rename_i hck
                          simp [cmap, mergeChildS, hn, hs, hck, List.append_nil]))

lemma mergeChildS_synthSimpleS (tags : TagDict) :
    ∀ (d : TagDict), (∀ p ∈ d, containsKey tags p.1 = true) →
      cmap (mergeChildS tags) (synthSimpleS d) = [] := by
  intro d
  induction d with
  | nil => intro _; rfl
  | cons p d ih =>
    intro h
    have hp := h p (List.mem_cons_self p d)
    have hd := ih (fun q hq => h q (List.mem_cons_of_mem p hq))
    have hfn : findTagName [.TagName p.1, .TagString p.2] = some (.TagName p.1) := rfl
    have hfs : findTagString [.TagName p.1, .TagString p.2] = some (.TagString p.2) := rfl
    simp only [synthSimpleS] at hd ⊢
    simp only [cmap, cmap_append, hd, List.append_nil]
    split
    · simp [cmap, mergeChildS, hfn, hfs, hp]
    · rfl

lemma mergeChildS_synthEntryS (tags : TagDict) :
    cmap (mergeChildS tags) (synthEntryS tags) = huskEntry := by
  simp only [synthEntryS, cmap_append]
  rw [mergeChildS_synthSimpleS tags tags (fun p hp => containsKey_of_mem hp)]
  rfl

lemma map_merge_idem (tags : TagDict) (entries : List (List TagChild)) :
    (entries.map (fun e => cmap (mergeChildS tags) e)).map
        (fun e => cmap (mergeChildS tags) e) =
      entries.map (fun e => cmap (mergeChildS tags) e) := by
  induction entries with
  | nil => rfl
  | cons e entries ih => simp [List.map_cons, mergeChildS_idem, ih]

lemma outItems_outItem1 (title : String) (tags : TagDict) (iw : Bool) (i : Item)
    (hi : i.ok = true) :
    outItems title tags iw (outItem1 title tags iw i) =
      (outItem1 title tags iw i).map insertHuskItem := by
  cases i with
  | plain t =>
    by_cases hc : (isTriggerStart t && !iw) = true
    · have hiw : iw = false := by
        cases iw
        · rfl
        · simp at hc
      subst hiw
      have ht : isTriggerStart t = true := by simpa using hc
      simp [outItem1, outItems, itemIW, insertHuskItem, isTitleEvt,
        List.filter_cons, ht]
    · simp [outItem1, hc, outItems, itemIW, insertHuskItem]
  | infoSec body =>
    simp [outItem1, outItems, itemIW, insertHuskItem, List.filter_append,
      List.filter_filter, isTitleEvt, Bool.and_self, List.filter_cons]
  | tagsSec entries =>
    by_cases hc : (!iw) = true
    · have hiw : iw = false := by simpa using hc
      subst hiw
      simp only [outItem1, Bool.not_false, if_true, outItems, itemIW, List.map_append,
        List.map_cons, List.map_nil, List.append_nil, List.nil_append,
        List.singleton_append, List.cons_append, map_merge_idem,
        mergeChildS_synthEntryS, insertHuskItem, insertHuskEntries_concat,
        List.filter_cons, isTitleEvt, Bool.not_true, List.filter_nil]
      simp [List.append_assoc]
    · have hiw : iw = true := by simpa using hc
      subst hiw
      simp only [outItem1, Bool.not_true, Bool.false_eq_true, if_false, outItems,
        itemIW, List.map_append, List.map_cons, List.map_nil, List.append_nil,
        List.nil_append, List.singleton_append, List.cons_append, map_merge_idem,
        mergeChildS_synthEntryS, insertHuskItem, insertHuskEntries_concat]
      simp [List.append_assoc]

lemma outItems_outItems (title : String) (tags : TagDict) (items : List Item) :
    ∀ iw, items.all Item.ok = true →
      outItems title tags iw (outItems title tags iw items) =
        (outItems title tags iw items).map insertHuskItem := by
  induction items with
  | nil => intro iw _; rfl
  | cons i items ih =>
    intro iw h
    simp only [List.all_cons, Bool.and_eq_true] at h
    simp only [outItems, List.map_append]
    rw [outItems_append, foldl_outItem1, outItems_outItem1 title tags iw i h.1,
      ih (itemIW iw i) h.2]

lemma outStruct_outStruct (title : String) (tags : TagDict) (items : List Item)
    (h : items.all Item.ok = true) (h2 : hasInfoOrTrigger items = true) :
    outStruct title tags (outStruct title tags items) =
      (outStruct title tags items).map insertHuskItem := by
  have hx := outStruct_any_tagsSec title tags items
  have houter : outStruct title tags (outStruct title tags items) =
      outItems title tags false (outStruct title tags items) := by
    rw [outStruct, hx]
    simp
  rw [houter]
  simp only [outStruct, List.map_append]
  rw [outItems_append, foldl_outItems, foldl_itemIW_eq, h2, Bool.or_true,
    outItems_outItems title tags items false h]
  congr 1
  cases hA : items.any isTagsSecB
  · simp only [Bool.false_eq_true, if_false]
    simp only [outItems, outItem1, Bool.not_true, Bool.false_eq_true, if_false,
      List.map_cons, List.map_nil, List.nil_append, List.append_nil,
      mergeChildS_synthEntryS, insertHuskItem]
    rw [show ([synthEntryS tags] : List (List TagChild)) = [] ++ [synthEntryS tags]
      from rfl, insertHuskEntries_concat]
    rfl
  · simp [outItems]

/-- Claim C4, amended: running the engine on the re-read form of its own
output (for sources containing an Info section or at least one trigger
element) reproduces the first output except that the Tags section gains
one emptied Tag husk — the first run's synthesized entry with its
SimpleTags stripped, its empty Targets scope left — immediately before
the fresh synthesized entry; in particular no duplicate Title and no
duplicate reserved tags accumulate. -/
theorem spec_c4_amended (title : String) (tags : TagDict) (items : List Item)
    (h : items.all Item.ok = true) (h2 : hasInfoOrTrigger items = true) :
    ∃ out1 out2,
      insertLoop title tags (flattenItems items) = some out1 ∧
      readback out1 = flattenItems (outStruct title tags items) ∧
      insertLoop title tags (readback out1) = some out2 ∧
      readback out2 = flattenItems ((outStruct title tags items).map insertHuskItem) := by
  have hmain := insertLoop_items title tags items h
  have hok2 := outStruct_ok title tags items h
  have hrb1 := rb_insertLoop title tags items h _ hmain
  have hm2 := insertLoop_items title tags (outStruct title tags items) hok2
  have hrb2 := rb_insertLoop title tags (outStruct title tags items) hok2 _ hm2
  rw [outStruct_outStruct title tags items h h2] at hrb2
  refine ⟨itemsOut title tags false items ++
      (if items.any isTagsSecB then []
       else [MatroskaSpec.Tags Master.Start] ++ synthTagEntry tags ++
         [MatroskaSpec.Tags Master.End]),
    itemsOut title tags false (outStruct title tags items) ++
      (if (outStruct title tags items).any isTagsSecB then []
       else [MatroskaSpec.Tags Master.Start] ++ synthTagEntry tags ++
         [MatroskaSpec.Tags Master.End]),
    hmain, hrb1, ?_, hrb2⟩
  rw [hrb1]
  exact hm2

/-- Witness for spec_c4_amended at the concrete source holding one empty
Tags section. -/
theorem spec_c4_amended_witness :
    ([Item.tagsSec []].all Item.ok = true ∧ hasInfoOrTrigger [Item.tagsSec []] = true) ∧
    (∃ out1 out2,
      insertLoop "T" [("COMMENT", ""), ("TITLE", "T")] (flattenItems [Item.tagsSec []]) =
        some out1 ∧
      readback out1 =
        flattenItems (outStruct "T" [("COMMENT", ""), ("TITLE", "T")] [Item.tagsSec []]) ∧
      insertLoop "T" [("COMMENT", ""), ("TITLE", "T")] (readback out1) = some out2 ∧
      readback out2 = flattenItems
        ((outStruct "T" [("COMMENT", ""), ("TITLE", "T")] [Item.tagsSec []]).map
          insertHuskItem)) :=
  ⟨⟨by decide, by decide⟩,
    spec_c4_amended "T" [("COMMENT", ""), ("TITLE", "T")] [Item.tagsSec []]
      (by decide) (by decide)⟩

/-- Counterexample to claim C4 as stated: on the well-formed source with
one empty Tags section, running the engine (as the Video for the movie
titled T) on the re-read form of its own output yields a strictly longer
stream — the emptied husk of the first synthesized Tag entry remains in
front of the freshly synthesized one — so the two outputs are not equal. -/
theorem spec_c4_counterexample :
    wfStream [Item.tagsSec []] = true ∧
    ∃ out1 out2,
      insert_into_matroska (.Movie ⟨"T", 2020, none⟩ ⟨(1920, 1080), none⟩)
          (flattenItems [Item.tagsSec []]) = some out1 ∧
      insert_into_matroska (.Movie ⟨"T", 2020, none⟩ ⟨(1920, 1080), none⟩)
          (readback out1) = some out2 ∧
      readback out2 ≠ readback out1 :=
  ⟨by decide, _, _, rfl, rfl, fun h => absurd (congrArg List.length h) (by decide)⟩
